import Mathlib

/-!
Shallow embedding of the thumbnail-table layout engine (src/dtgtk/thumbtable.c)
and of the act-on image-set module (src/common/act_on.c).

The collection (memory.collected_images) is modelled as a list of image ids,
where the 1-based list position is the SQL rowid.  SQL queries over that table
become list filters, C integer division and modulo become Int.tdiv / Int.tmod
(both truncate toward zero, as C does), and the GTK widget tree is dropped:
only the state that the layout/selection logic reads or writes is kept.

The mutual recursion between _move (which may force a full redraw to realign
the top row), dt_thumbtable_full_redraw (which may scroll to make the first
selected image visible) and _filemanager_ensure_rowid_visibility (which moves
repeatedly until a row is visible) is embedded with an explicit fuel
parameter; exhausted fuel returns the state unchanged, and every theorem is
stated either for all fuel values or for a concrete sufficient fuel.

Each dt_thumbnail_t carries a model-only creation tag `uid`, handed out from a
counter in the table state, so that entry identity (reuse versus
destroy-and-recreate during reconciliation) is observable in theorems.
-/

namespace Thumbtable

/-- Layout mode of the thumbtable: multi-row, multi-column grid (filemanager)
or single-row horizontal strip (filmstrip). -/
inductive Mode where
  | filemanager
  | filmstrip
deriving DecidableEq, Repr

/-- One materialized thumbnail entry: the dt_thumbnail_t fields read or
written by the layout and annotation code.  `bleft/btop/bright/bbottom` are
the group-border bitset; `uid` is the model's creation tag. -/
structure Thumb where
  imgid : Int
  rowid : Int
  x : Int
  y : Int
  width : Int
  height : Int
  groupid : Int
  grouped : Bool
  mouse_over : Bool
  selected : Bool
  bleft : Bool
  btop : Bool
  bright : Bool
  bbottom : Bool
  uid : Nat
deriving DecidableEq, Repr

instance : Inhabited Thumb :=
  ⟨{ imgid := -1, rowid := -1, x := 0, y := 0, width := 0, height := 0,
     groupid := -1, grouped := false, mouse_over := false, selected := false,
     bleft := false, btop := false, bright := false, bbottom := false, uid := 0 }⟩

/-- dt_thumbtable_t: the state of the thumbnail table.  `list` is the window
cache (row-ordered list of live thumbnails), `areaX/..` is thumbs_area,
`uidCounter` is the model's next fresh creation tag. -/
structure Table where
  mode : Mode
  list : List Thumb
  offset : Int
  offset_imgid : Int
  thumbs_per_row : Int
  rows : Int
  thumb_size : Int
  view_width : Int
  view_height : Int
  center_offset : Int
  areaX : Int
  areaY : Int
  areaW : Int
  areaH : Int
  realign_top_try : Int
  dragging : Bool
  uidCounter : Nat
deriving DecidableEq, Repr

/-- External collaborators of thumbtable.c: the widget allocation, the
lighttable zoom level, the collection (list of image ids in rowid order,
rowid = 1-based position), the selection store and the image-info store
(used when a thumbnail is created). -/
structure Env where
  allocW : Int
  allocH : Int
  zoom : Int
  collection : List Int
  selFirstId : Int
  selectedOf : Int → Bool
  groupidOf : Int → Int
  groupedOf : Int → Bool

/-- The rows (rowid, imgid) of memory.collected_images; rowid is 1-based. -/
def colRows (c : List Int) : List (Int × Int) :=
  c.enum.map (fun p => ((p.1 : Int) + 1, p.2))

/-- SELECT rowid, imgid ... WHERE rowid >= off ORDER BY rowid LIMIT lim
(a negative SQL LIMIT means no limit). -/
def queryGE (c : List Int) (off lim : Int) : List (Int × Int) :=
  let rs := (colRows c).filter (fun p => decide (off ≤ p.1))
  if lim < 0 then rs else rs.take lim.toNat

/-- SELECT ... WHERE rowid < below ORDER BY rowid DESC LIMIT lim. -/
def queryLT (c : List Int) (below lim : Int) : List (Int × Int) :=
  let rs := ((colRows c).filter (fun p => decide (p.1 < below))).reverse
  if lim < 0 then rs else rs.take lim.toNat

/-- SELECT ... WHERE rowid > above ORDER BY rowid LIMIT lim. -/
def queryGT (c : List Int) (above lim : Int) : List (Int × Int) :=
  let rs := (colRows c).filter (fun p => decide (above < p.1))
  if lim < 0 then rs else rs.take lim.toNat

/-- _thumb_get_imgid: imgid stored at a rowid, -1 when none. -/
def imgidAt (e : Env) (rowid : Int) : Int :=
  match (colRows e.collection).find? (fun p => decide (p.1 = rowid)) with
  | some p => p.2
  | none => -1

/-- _thumb_get_rowid: rowid of an imgid, -1 when none. -/
def rowidOf (e : Env) (imgid : Int) : Int :=
  match (colRows e.collection).find? (fun p => decide (p.2 = imgid)) with
  | some p => p.1
  | none => -1

/-- _compute_sizes: recompute thumb_size / thumbs_per_row / rows /
center_offset from the current allocation; returns (changed, table).
A degenerate allocation (≤ 20 px in either direction) only records the new
allocation and reports no change. -/
def computeSizes (e : Env) (t : Table) (force : Bool) : Bool × Table :=
  if e.allocW ≤ 20 ∨ e.allocH ≤ 20 then
    (false, { t with view_width := e.allocW, view_height := e.allocH })
  else
    match t.mode with
    | .filemanager =>
      let npr := e.zoom
      if force = true ∨ e.allocW ≠ t.view_width ∨ e.allocH ≠ t.view_height ∨
          npr ≠ t.thumbs_per_row then
        let ts := min (e.allocW.tdiv npr) e.allocH
        (true, { t with thumbs_per_row := npr, view_width := e.allocW,
                        view_height := e.allocH, thumb_size := ts,
                        rows := e.allocH.tdiv ts + 1,
                        center_offset := (e.allocW - npr * ts).tdiv 2 })
      else (false, t)
    | .filmstrip =>
      if force = true ∨ e.allocW ≠ t.view_width ∨ e.allocH ≠ t.view_height then
        let ts := e.allocH
        let r0 := e.allocW.tdiv ts
        (true, { t with thumbs_per_row := 1, view_width := e.allocW,
                        view_height := e.allocH, thumb_size := ts,
                        center_offset := 0,
                        rows := if r0.tmod 2 ≠ 0 then r0 + 2 else r0 + 1 })
      else (false, t)

/-- The geometry fields read by the position-stepping functions. -/
structure Geom where
  mode : Mode
  thumb_size : Int
  thumbs_per_row : Int
  view_width : Int
  center_offset : Int
deriving DecidableEq, Repr

/-- The current geometry of a table. -/
def Table.geom (t : Table) : Geom :=
  ⟨t.mode, t.thumb_size, t.thumbs_per_row, t.view_width, t.center_offset⟩

/-- _pos_get_next: position of the image after the one at (x, y). -/
def posNext (g : Geom) (x y : Int) : Int × Int :=
  match g.mode with
  | .filemanager =>
    let x2 := x + g.thumb_size
    if g.view_width < x2 + g.thumb_size then (g.center_offset, y + g.thumb_size)
    else (x2, y)
  | .filmstrip => (x + g.thumb_size, y)

/-- _pos_get_previous: position of the image before the one at (x, y). -/
def posPrev (g : Geom) (x y : Int) : Int × Int :=
  match g.mode with
  | .filemanager =>
    let x2 := x - g.thumb_size
    if x2 < 0 then ((g.thumbs_per_row - 1) * g.thumb_size + g.center_offset, y - g.thumb_size)
    else (x2, y)
  | .filmstrip => (x - g.thumb_size, y)

/-- Iterated _pos_get_next. -/
def posAt (g : Geom) (p : Int × Int) : Nat → Int × Int
  | 0 => p
  | k + 1 => posAt g (posNext g p.1 p.2) k

def intMax : Int := 2147483647
def intMin : Int := -2147483648

/-- _pos_compute_area: bounding box of all loaded thumbs. -/
def computeArea (t : Table) : Table :=
  let x1 := t.list.foldl (fun a th => min a th.x) intMax
  let y1 := t.list.foldl (fun a th => min a th.y) intMax
  let x2 := t.list.foldl (fun a th => max a th.x) intMin
  let y2 := t.list.foldl (fun a th => max a th.y) intMin
  { t with areaX := x1, areaY := y1,
           areaW := x2 + t.thumb_size - x1, areaH := y2 + t.thumb_size - y1 }

/-- _list_compare_by_imgid as a match test: negative ids never match. -/
def matchImg (th : Thumb) (v : Int) : Bool :=
  if th.imgid < 0 ∨ v < 0 then false else th.imgid == v

/-- Remove the first element satisfying p from a list (g_list_find_custom
followed by g_list_remove of the found node). -/
def extractFirst (p : Thumb → Bool) : List Thumb → Option (Thumb × List Thumb)
  | [] => none
  | a :: as =>
    if p a then some (a, as)
    else
      match extractFirst p as with
      | some pr => some (pr.1, a :: pr.2)
      | none => none

/-- Modelled from the spec: dt_thumbnail_new (thumbnail.c is not under src/).
A fresh ThumbnailEntry for imgid/rowid with the given square size; the group
and selection fields are read from the external stores, borders start empty
(spec section 3, ThumbnailEntry). -/
def mkThumb (e : Env) (ts imgid rowid : Int) (uid : Nat) : Thumb :=
  { imgid := imgid, rowid := rowid, x := 0, y := 0, width := ts, height := ts,
    groupid := e.groupidOf imgid, grouped := e.groupedOf imgid,
    mouse_over := false, selected := e.selectedOf imgid,
    bleft := false, btop := false, bright := false, bbottom := false, uid := uid }

/-- Accumulator of the full-redraw reconciliation loop: the still-unclaimed
old list, the new list built in reverse, the running position, the candidate
offset_imgid and the fresh-uid counter. -/
structure RedrawAcc where
  old : List Thumb
  acc : List Thumb
  px : Int
  py : Int
  oimg : Int
  ctr : Nat

/-- One iteration of the reconciliation loop of dt_thumbtable_full_redraw:
reuse the entry with this imgid if the old list still holds one (updating its
rowid, position and size in place), otherwise create a fresh entry; then
advance the position and record offset_imgid when this row is the offset. -/
def redrawStep (e : Env) (t : Table) (s : RedrawAcc) (rv : Int × Int) : RedrawAcc :=
  let s2 :=
    match extractFirst (fun th => matchImg th rv.2) s.old with
    | some pr =>
      let th2 := { pr.1 with rowid := rv.1, x := s.px, y := s.py,
                             width := t.thumb_size, height := t.thumb_size }
      { s with old := pr.2, acc := th2 :: s.acc }
    | none =>
      let th := { mkThumb e t.thumb_size rv.2 rv.1 s.ctr with x := s.px, y := s.py }
      { s with acc := th :: s.acc, ctr := s.ctr + 1 }
  let p := posNext t.geom s.px s.py
  { s2 with px := p.1, py := p.2,
            oimg := if rv.1 = t.offset then rv.2 else s2.oimg }

/-- The selection-flag refresh of a forced full redraw. -/
def selMap (e : Env) (t : Table) : Table :=
  { t with list := t.list.map (fun th => { th with selected := e.selectedOf th.imgid }) }

/-- Grid-mode offset snapping of dt_thumbtable_full_redraw: the first rowid of
the full grid row containing the offset. -/
def snapOffset (t : Table) : Int :=
  ((t.offset - 1).tdiv t.thumbs_per_row) * t.thumbs_per_row + 1

/-- Filmstrip-mode first rowid to load (the offset is the centered image). -/
def stripStart (t : Table) : Int :=
  max 1 (t.offset - t.rows.tdiv 2)

/-- Filmstrip-mode number of leading empty slots. -/
def stripEmpty (t : Table) : Int :=
  -(min 0 (t.offset - t.rows.tdiv 2 - 1))

/-- The row range queried by a full redraw, for a table whose sizes have
already been recomputed (and, in grid mode, before snapping is applied). -/
def desiredQuery (e : Env) (t : Table) : List (Int × Int) :=
  match t.mode with
  | .filemanager => queryGE e.collection (snapOffset t) (t.rows * t.thumbs_per_row)
  | .filmstrip =>
    queryGE e.collection (stripStart t) (t.rows * t.thumbs_per_row - stripEmpty t)

/-- The position where a full redraw places the first queried row. -/
def startPos (t : Table) : Int × Int :=
  match t.mode with
  | .filemanager => (t.center_offset, 0)
  | .filmstrip =>
    ((t.view_width - t.rows * t.thumb_size).tdiv 2 + stripEmpty t * t.thumb_size, 0)

/-- Run the reconciliation loop of dt_thumbtable_full_redraw over a query
result and install the new list (old leftovers are destroyed), then recompute
the thumbs area. -/
def runQuery (e : Env) (t : Table) (q : List (Int × Int)) (posx posy : Int) : Table :=
  let s := q.foldl (redrawStep e t)
    { old := t.list, acc := [], px := posx, py := posy,
      oimg := t.offset_imgid, ctr := t.uidCounter }
  computeArea { t with list := s.acc.reverse, offset_imgid := s.oimg, uidCounter := s.ctr }

/-- The reconciliation pass of dt_thumbtable_full_redraw, run after
_compute_sizes reported a change: snap the offset (grid) or center it
(filmstrip), query the desired row range, and diff it against the old list. -/
def redrawLayout (e : Env) (t0 : Table) : Table :=
  let t1 := { t0 with dragging := false }
  match t1.mode with
  | .filemanager =>
    let t2 := { t1 with offset := snapOffset t1 }
    runQuery e t2 (queryGE e.collection t2.offset (t2.rows * t2.thumbs_per_row))
      t2.center_offset 0
  | .filmstrip =>
    runQuery e t1
      (queryGE e.collection (stripStart t1) (t1.rows * t1.thumbs_per_row - stripEmpty t1))
      ((t1.view_width - t1.rows * t1.thumb_size).tdiv 2 + stripEmpty t1 * t1.thumb_size) 0

/-- Accumulator for _thumbs_load_needed: thumbs collected so far (newest
first), running position, uid counter, number loaded. -/
structure LoadAcc where
  thumbs : List Thumb
  px : Int
  py : Int
  ctr : Nat
  cnt : Nat

/-- Loop body of the load-at-the-beginning part of _thumbs_load_needed
(the query walks rowids downward; invisible thumbs are skipped but the
position still advances backward). -/
def loadPrevStep (e : Env) (t : Table) (s : LoadAcc) (rv : Int × Int) : LoadAcc :=
  let s2 :=
    if s.py < t.view_height then
      { s with thumbs := ({ mkThumb e t.thumb_size rv.2 rv.1 s.ctr with
                            x := s.px, y := s.py }) :: s.thumbs,
               ctr := s.ctr + 1, cnt := s.cnt + 1 }
    else s
  let p := posPrev t.geom s.px s.py
  { s2 with px := p.1, py := p.2 }

/-- Loop body of the load-at-the-end part of _thumbs_load_needed. -/
def loadNextStep (e : Env) (t : Table) (s : LoadAcc) (rv : Int × Int) : LoadAcc :=
  let s2 :=
    if 0 ≤ s.py + t.thumb_size then
      { s with thumbs := ({ mkThumb e t.thumb_size rv.2 rv.1 s.ctr with
                            x := s.px, y := s.py }) :: s.thumbs,
               ctr := s.ctr + 1, cnt := s.cnt + 1 }
    else s
  let p := posNext t.geom s.px s.py
  { s2 with px := p.1, py := p.2 }

/-- _thumbs_load_needed: load the thumbs that should appear before the first
and after the last currently-loaded entry; returns (number loaded, table). -/
def loadNeeded (e : Env) (t : Table) : Nat × Table :=
  match t.list with
  | [] => (0, t)
  | first :: _ =>
    let st1 :=
      if 1 < first.rowid ∧
          ((t.mode = .filemanager ∧ 0 < first.y) ∨
           (t.mode = .filmstrip ∧ 0 < first.x)) then
        let space := if t.mode = .filmstrip then first.x else first.y
        let nb := space.tdiv t.thumb_size +
          (if space.tmod t.thumb_size ≠ 0 then (1 : Int) else 0)
        let q := queryLT e.collection first.rowid (nb * t.thumbs_per_row)
        let p0 := posPrev t.geom first.x first.y
        let s := q.foldl (loadPrevStep e t)
          { thumbs := [], px := p0.1, py := p0.2, ctr := t.uidCounter, cnt := 0 }
        (s.cnt, { t with list := s.thumbs ++ t.list, uidCounter := s.ctr })
      else (0, t)
    let t1 := st1.2
    let last := t1.list.getLastD default
    let st2 :=
      if (t1.mode = .filemanager ∧ last.y + t1.thumb_size < t1.view_height ∧
            t1.thumb_size * (t1.thumbs_per_row - 1) ≤ last.x) ∨
         (t1.mode = .filmstrip ∧ last.x + t1.thumb_size < t1.view_width) then
        let space := if t1.mode = .filmstrip then t1.view_width - (last.x + t1.thumb_size)
                     else t1.view_height - (last.y + t1.thumb_size)
        let nb := space.tdiv t1.thumb_size +
          (if space.tmod t1.thumb_size ≠ 0 then (1 : Int) else 0)
        let q := queryGT e.collection last.rowid (nb * t1.thumbs_per_row)
        let p0 := posNext t1.geom last.x last.y
        let s := q.foldl (loadNextStep e t1)
          { thumbs := [], px := p0.1, py := p0.2, ctr := t1.uidCounter, cnt := 0 }
        (s.cnt, { t1 with list := t1.list ++ s.thumbs.reverse, uidCounter := s.ctr })
      else (0, t1)
    (st1.1 + st2.1, st2.2)

/-- _thumbs_remove_unneeded test: completely hidden thumbs. -/
def unneeded (t : Table) (th : Thumb) : Bool :=
  decide (th.y + t.thumb_size ≤ 0 ∨ t.view_height < th.y ∨
    (t.mode = .filmstrip ∧ (th.x + t.thumb_size ≤ 0 ∨ t.view_width < th.x)))

/-- _thumbs_remove_unneeded: evict hidden thumbs; returns (number removed, table). -/
def removeUnneeded (t : Table) : Nat × Table :=
  let keep := t.list.filter (fun th => !(unneeded t th))
  (t.list.length - keep.length, { t with list := keep })

/-- The unconditional tail of _move: shift every thumb, shift the area, load
newly exposed thumbs, evict hidden ones, recompute the area if membership
changed, and recompute + persist the offset. -/
def moveCommon (e : Env) (t : Table) (posx posy : Int) : Bool × Table :=
  if posy = 0 ∧ posx = 0 then (false, t)
  else
    let ta := { t with
      list := t.list.map (fun (th : Thumb) => { th with x := th.x + posx, y := th.y + posy }) }
    let oldAreaY := ta.areaY
    let tb := { ta with areaX := ta.areaX + posx, areaY := ta.areaY + posy }
    let l1 := loadNeeded e tb
    let l2 := removeUnneeded l1.2
    let tc := if 0 < l1.1 + l2.1 then computeArea l2.2 else l2.2
    let td :=
      match tc.mode with
      | .filemanager =>
        let off := max 1 (tc.offset - ((posy + oldAreaY).tdiv tc.thumb_size) * tc.thumbs_per_row)
        { tc with offset := off, offset_imgid := imgidAt e off }
      | .filmstrip =>
        let off := max 1 (tc.offset - posx.tdiv tc.thumb_size)
        { tc with offset := off, offset_imgid := imgidAt e off }
    (true, td)

mutual

/-- _move: move all thumbs by (x, y); when clamp is set, first check the
collection bounds.  Fuel-indexed because the grid realign path forces a full
redraw. -/
def moveF : Nat → Env → Table → Int → Int → Bool → Bool × Table
  | 0, _, t, _, _, _ => (false, t)
  | n + 1, e, t, x, y, clamp =>
    match t.list with
    | [] => (false, t)
    | first :: _ =>
      if clamp then
        match t.mode with
        | .filemanager =>
          if y = 0 then (false, t)
          else if first.rowid = 1 ∧ 0 < y ∧ 0 ≤ first.y then
            (if first.x ≠ 0 then
              (if 2 < t.realign_top_try + 1 then
                (true, fullRedrawF n e { t with realign_top_try := 0 } true)
              else (false, { t with realign_top_try := t.realign_top_try + 1 }))
            else (false, t))
          else
            let t2 := { t with realign_top_try := 0 }
            let last := t2.list.getLastD default
            if t2.thumbs_per_row = 1 ∧ y < 0 ∧ t2.list.length = 1 then
              (if (e.collection.length : Int) ≤ last.rowid then (false, t2)
               else moveCommon e t2 0 y)
            else if last.y + t2.thumb_size < t2.view_height ∧ y < 0 ∧ t2.areaY = 0 then
              (false, t2)
            else moveCommon e t2 0 y
        | .filmstrip =>
          if x = 0 then (false, t)
          else if first.rowid = 1 ∧ 0 < x ∧ t.view_width.tdiv 2 - t.thumb_size ≤ first.x then
            (false, t)
          else
            let last := t.list.getLastD default
            if last.x < t.view_width.tdiv 2 ∧ x < 0 then (false, t)
            else moveCommon e t x 0
      else moveCommon e t x y

/-- dt_thumbtable_full_redraw: recompute sizes and, if anything changed,
reconcile the window cache against the freshly queried desired row range;
afterwards, in filemanager mode with a non-empty selection, scroll until the
first selected image is visible, and on force refresh the selection flags. -/
def fullRedrawF : Nat → Env → Table → Bool → Table
  | 0, _, t, _ => t
  | n + 1, e, t, force =>
    match computeSizes e t force with
    | (false, t1) => t1
    | (true, t1) =>
      let t2 := redrawLayout e t1
      let t3 :=
        if -1 < e.selFirstId ∧ t2.mode = .filemanager then
          (if e.selFirstId < 1 then t2
           else (ensureRowF n e t2 (rowidOf e e.selFirstId)).2)
        else t2
      if force then selMap e t3 else t3

/-- _filemanager_ensure_rowid_visibility: move one batch of rows toward the
target rowid and recurse while the move succeeds. -/
def ensureRowF : Nat → Env → Table → Int → Bool × Table
  | 0, _, t, _ => (false, t)
  | n + 1, e, t, rowid =>
    let r := max rowid 1
    match t.list with
    | [] => (false, t)
    | first :: _ =>
      let pos := min ((t.list.length : Int) - 1) (t.thumbs_per_row * (t.rows - 1) - 1)
      let last := (t.list.get? pos.toNat).getD default
      if r < first.rowid then
        let k := max 1 ((first.rowid - r).tdiv t.thumbs_per_row)
        match moveF n e t 0 (k * t.thumb_size) true with
        | (true, t2) => ensureRowF n e t2 rowid
        | (false, t2) => (false, t2)
      else if last.rowid < r then
        let k := max 1 ((r - last.rowid).tdiv t.thumbs_per_row)
        match moveF n e t 0 (-(k * t.thumb_size)) true with
        | (true, t2) => ensureRowF n e t2 rowid
        | (false, t2) => (false, t2)
      else (true, t)

end

/-- dt_thumbtable_set_offset: reject offsets below 1 or equal to the current
one, otherwise store and optionally redraw. -/
def setOffset (fuel : Nat) (e : Env) (t : Table) (off : Int) (redraw : Bool) :
    Bool × Table :=
  if off < 1 ∨ off = t.offset then (false, t)
  else
    let t2 := { t with offset := off }
    (true, if redraw then fullRedrawF fuel e t2 true else t2)

/-- dt_thumbtable_new: calloc-zeroed state except for the persisted offset,
clamped to at least 1. -/
def newTable (confPos : Int) : Table :=
  { mode := .filemanager, list := [], offset := max 1 confPos, offset_imgid := 0,
    thumbs_per_row := 0, rows := 0, thumb_size := 0, view_width := 0,
    view_height := 0, center_offset := 0, areaX := 0, areaY := 0, areaW := 0,
    areaH := 0, realign_top_try := 0, dragging := false, uidCounter := 0 }

/-- The next/previous-valid-image search of _dt_collection_changed_callback:
walk the list, and after passing the entry whose imgid is the target, return
the first entry that still has a valid rowid in the new collection. -/
def scanValid (e : Env) (target : Int) : Bool → List Thumb → Option (Int × Int)
  | _, [] => none
  | after, th :: rest =>
    if after then
      let r := rowidOf e th.imgid
      if 0 < r then some (r, th.imgid) else scanValid e target true rest
    else scanValid e target (th.imgid == target) rest

/-- Filmstrip part of the reload branch of _dt_collection_changed_callback:
when the first selected image differs from the current offset image, move the
offset to it (redrawing) and remember the previous offset imgid for the final
restore; otherwise remember -1. -/
def reloadEarly (fuel : Nat) (e : Env) (t : Table) : Int × Table :=
  let tmpoff := e.selFirstId
  if t.mode = .filmstrip ∧ -1 < tmpoff ∧ tmpoff ≠ t.offset_imgid then
    (t.offset_imgid,
     fullRedrawF fuel e { t with offset := rowidOf e tmpoff, offset_imgid := tmpoff } true)
  else (-1, t)

/-- Offset-retargeting part of the reload branch: pick the image that stays
anchored (same imgid, or `next` when the offset image moved, or the nearest
still-valid neighbor in the old window), and clamp the offset to at least 1. -/
def reloadRetarget (e : Env) (ta : Table) (imgs : List Int) (next : Int) : Table :=
  let newid0 := if ta.offset_imgid ≤ 0 ∧ 0 < ta.offset then imgidAt e ta.offset
                else ta.offset_imgid
  let inList := ta.offset_imgid ∈ imgs
  let newid1 := if inList ∧ 0 < next ∧ rowidOf e ta.offset_imgid ≠ ta.offset then next
                else newid0
  let nrow := rowidOf e newid1
  let rn :=
    if nrow ≤ 0 then
      match scanValid e newid1 false ta.list with
      | some p => p
      | none =>
        match scanValid e newid1 false ta.list.reverse with
        | some p => p
        | none => (nrow, newid1)
    else (nrow, newid1)
  { ta with offset_imgid := if 1 ≤ rn.1 then rn.2 else imgidAt e 1,
            offset := max 1 rn.1 }

/-- Final filmstrip-position restore of the reload branch. -/
def reloadRestore (fuel : Nat) (e : Env) (oldOffset : Int) (tc : Table) : Table :=
  if 0 < oldOffset ∧ oldOffset ≠ tc.offset then
    let r := rowidOf e oldOffset
    if 0 < r then
      fullRedrawF fuel e { tc with offset := r, offset_imgid := oldOffset } true
    else tc
  else tc

/-- _dt_collection_changed_callback (the table-state part; hover transfer is
an external side effect).  `isReload` distinguishes
DT_COLLECTION_CHANGE_RELOAD from the other change kinds; `imgs` is the
changed-image list and `next` the proposed replacement imgid. -/
def collectionChangedF (fuel : Nat) (e : Env) (t : Table) (isReload : Bool)
    (imgs : List Int) (next : Int) : Table :=
  if isReload then
    let p := reloadEarly fuel e t
    reloadRestore fuel e p.1 (fullRedrawF fuel e (reloadRetarget e p.2 imgs next) true)
  else
    fullRedrawF fuel e { t with offset := 1, offset_imgid := imgidAt e 1 } true

/-- First pass of _dt_mouse_over_image_callback: the groupid of the hovered
thumb when it is grouped (the fold keeps the last match, like the C loop). -/
def hoverGroup (l : List Thumb) (imgid : Int) : Int :=
  l.foldl (fun g th => if th.imgid = imgid ∧ th.grouped then th.groupid else g) (-1)

/-- First pass of _dt_mouse_over_image_callback over the list: refresh each
mouse_over flag and clear all group borders. -/
def clearPass (l : List Thumb) (imgid : Int) : List Thumb :=
  l.map (fun th => { th with mouse_over := th.imgid == imgid,
                             bleft := false, btop := false,
                             bright := false, bbottom := false })

/-- Neighbor test of the border pass: the entry at (possibly negative) index
i exists and carries this groupid. -/
def nbrSame (l : List Thumb) (i : Int) (g : Int) : Bool :=
  if 0 ≤ i then
    match l.get? i.toNat with
    | some th => th.groupid == g
    | none => false
  else false

/-- Second pass of _dt_mouse_over_image_callback for one entry: group borders
for the entries of the hovered group.  In grid mode left/right come from the
window-order neighbor and row geometry; in filmstrip mode top/bottom are set
unconditionally and left/right use the row-distance (= horizontal, since
thumbs_per_row is 1) neighbor test. -/
def borderFor (t : Table) (l : List Thumb) (g : Int) (pos : Nat) (th : Thumb) : Thumb :=
  if th.groupid = g then
    let th2 :=
      if t.mode ≠ .filmstrip then
        let bL := !(decide (pos ≠ 0) && decide (th.x ≠ t.areaX) &&
                    nbrSame l ((pos : Int) - 1) g)
        let bR := !(decide (pos + 1 < l.length) &&
                    decide (2 * th.x + 3 * th.width < 2 * t.areaW) &&
                    nbrSame l ((pos : Int) + 1) g)
        { th with bleft := bL, bright := bR }
      else
        { th with btop := true, bbottom := true }
    let bT := !(decide (0 ≤ (pos : Int) - t.thumbs_per_row) &&
                nbrSame l ((pos : Int) - t.thumbs_per_row) g)
    let th3 := if t.mode = .filmstrip then { th2 with bleft := bT }
               else { th2 with btop := bT }
    let bB := !(decide (0 ≤ (pos : Int) + t.thumbs_per_row) &&
                decide ((pos : Int) + t.thumbs_per_row < (l.length : Int)) &&
                nbrSame l ((pos : Int) + t.thumbs_per_row) g)
    if t.mode = .filmstrip then { th3 with bright := bB }
    else { th3 with bbottom := bB }
  else th

/-- Position-indexed map (the `pos` counter of the border pass). -/
def mapPos (f : Nat → Thumb → Thumb) : Nat → List Thumb → List Thumb
  | _, [] => []
  | i, a :: as => f i a :: mapPos f (i + 1) as

/-- _dt_mouse_over_image_callback (state part): refresh mouse_over flags,
clear group borders, and when the hovered image belongs to a group draw the
group borders around that group. -/
def mouseOverCallback (t : Table) (imgid : Int) : Table :=
  let g := hoverGroup t.list imgid
  let l1 := clearPass t.list imgid
  if 0 < g then { t with list := mapPos (borderFor t l1 g) 0 l1 }
  else { t with list := l1 }

/-- Output of the reconciliation loop, described structurally. -/
structure SpecOut where
  produced : List Thumb
  leftover : List Thumb
  ctrOut : Nat

/-- Structural description of the reconciliation loop of
dt_thumbtable_full_redraw: walk the query rows in order; a row whose imgid is
still in the old list reuses that entry (updating rowid, position and size in
place), any other row creates a fresh entry with the next creation tag; the
rows not claimed remain as leftovers (they get destroyed by the redraw). -/
def runSpec (e : Env) (g : Geom) (ts : Int) :
    List (Int × Int) → List Thumb → Int × Int → Nat → SpecOut
  | [], old, _, c => ⟨[], old, c⟩
  | rv :: q, old, p, c =>
    match extractFirst (fun th => matchImg th rv.2) old with
    | some pr =>
      let th2 :=
        { pr.1 with rowid := rv.1, x := p.1, y := p.2, width := ts, height := ts }
      let o := runSpec e g ts q pr.2 (posNext g p.1 p.2) c
      ⟨th2 :: o.produced, o.leftover, o.ctrOut⟩
    | none =>
      let th := { mkThumb e ts rv.2 rv.1 c with x := p.1, y := p.2 }
      let o := runSpec e g ts q old (posNext g p.1 p.2) (c + 1)
      ⟨th :: o.produced, o.leftover, o.ctrOut⟩

/-- The offset_imgid accumulation of the reconciliation loop. -/
def oimgFold (off : Int) (q : List (Int × Int)) (o : Int) : Int :=
  q.foldl (fun a rv => if rv.1 = off then rv.2 else a) o

/-- The produced list matches the query rows one for one: same imgid and
rowid, consecutive grid positions starting at p, and the current square
thumbnail size — exactly the layout a full redraw installs for the desired
row range. -/
def Aligned (g : Geom) (ts : Int) : Int × Int → List (Int × Int) → List Thumb → Prop
  | _, [], [] => True
  | p, rv :: q, th :: l =>
      th.imgid = rv.2 ∧ th.rowid = rv.1 ∧ th.x = p.1 ∧ th.y = p.2 ∧
      th.width = ts ∧ th.height = ts ∧
      Aligned g ts (posNext g p.1 p.2) q l
  | _, [], _ :: _ => False
  | _, _ :: _, [] => False

end Thumbtable

namespace ActOn

/-- External collaborators of act_on.c: hover id, mouse-inside-thumbtable
flag, active images, the selection list (per only_visible/ordered flags), the
image cache group lookup, the grouping preference, the expanded group id, the
presence of a collection behind the selection, and the
group-members-matching-the-collection query. -/
structure AEnv where
  mouseover : Int
  inside : Bool
  active : List Int
  sel : Bool → Bool → List Int
  groupOf : Int → Option Int
  grouping : Bool
  expanded : Int
  hasCollection : Bool
  members : Int → List Int

/-- dt_act_on_cache_t. -/
structure ACache where
  ok : Bool
  ordered : Bool
  images : List Int
  images_nb : Nat
  image_over : Int
  active_imgs : List Int
  inside_table : Bool
deriving Repr, DecidableEq

/-- Append v unless already present (the g_list_find_custom + g_list_append
pattern of _insert_in_list). -/
def insertAbsent (l : List Int) (v : Int) : List Int :=
  if v ∈ l then l else l ++ [v]

/-- _insert_in_list: in only_visible mode just insert; otherwise look the
image up in the cache (silently skip unknown images), insert only the image
itself when grouping is off, its group is the expanded one, or the selection
has no collection, and otherwise insert every member of its group matching
the collection filter. -/
def insertInList (e : AEnv) (l : List Int) (imgid : Int) (onlyVisible : Bool) :
    List Int :=
  if onlyVisible then insertAbsent l imgid
  else
    match e.groupOf imgid with
    | none => l
    | some g =>
      if e.grouping = false ∨ e.expanded = g ∨ e.hasCollection = false then
        insertAbsent l imgid
      else (e.members g).foldl insertAbsent l

/-- The no-cache recomputation performed by _cache_update: the selection list
followed by the active images (each expanded through _insert_in_list, then
forced into the list in the not-only-visible case). -/
def freshList (e : AEnv) (onlyVisible ordered : Bool) : List Int :=
  e.active.foldl
    (fun l id =>
      let l2 := insertInList e l id onlyVisible
      if onlyVisible then l2 else insertInList e l2 id true)
    (e.sel onlyVisible ordered)

/-- The element-wise comparison loop of _test_cache (walks both lists in
lock-step and stops at the shorter one). -/
def zipEq : List Int → List Int → Bool
  | a :: as, b :: bs => a == b && zipEq as bs
  | _, _ => true

/-- _test_cache: the cache is valid when it is marked ok, the cached hover id
and mouse-inside flag match the current ones, the active-image lists have
equal length, and — only when the mouse is outside the table and the cached
active list is non-empty — the active lists agree element-wise. -/
def testCache (e : AEnv) (c : ACache) : Bool :=
  c.ok && c.image_over == e.mouseover && c.inside_table == e.inside &&
    c.active_imgs.length == e.active.length &&
    (if e.inside = false ∧ c.active_imgs ≠ [] then zipEq c.active_imgs e.active
     else true)

/-- The cache record written by _cache_update after a recomputation. -/
def freshCache (e : AEnv) (onlyVisible ordered : Bool) : ACache :=
  let l := freshList e onlyVisible ordered
  { ok := true, ordered := ordered, images := l, images_nb := l.length,
    image_over := e.mouseover, active_imgs := e.active, inside_table := e.inside }

/-- _cache_update: keep the cache when not forced, same ordering and still
valid; otherwise recompute.  Returns (updated?, cache). -/
def cacheUpdate (e : AEnv) (c : ACache) (onlyVisible force ordered : Bool) :
    Bool × ACache :=
  if force = false ∧ c.ordered = ordered ∧ testCache e c = true then (false, c)
  else (true, freshCache e onlyVisible ordered)

/-- dt_act_on_get_images: update the cache if needed and return (a copy of)
its image list. -/
def getImages (e : AEnv) (c : ACache) (onlyVisible force ordered : Bool) :
    List Int × ACache :=
  let c2 := (cacheUpdate e c onlyVisible force ordered).2
  (if c2.ok then c2.images else [], c2)

end ActOn


open Thumbtable ActOn

/-- A concrete thumbtable environment used by the witnesses: ten images,
five-column zoom, a 500 x 220 allocation and no selection. -/
def envW : Env :=
  { allocW := 500, allocH := 220, zoom := 5,
    collection := [10, 20, 30, 40, 50, 60, 70, 80, 90, 100],
    selFirstId := -1, selectedOf := fun _ => false,
    groupidOf := fun _ => 0, groupedOf := fun _ => false }

/-- A freshly created empty filemanager table used by the witnesses. -/
def tblW : Table :=
  { mode := .filemanager, list := [], offset := 1, offset_imgid := -1,
    thumbs_per_row := 0, rows := 0, thumb_size := 0, view_width := 0,
    view_height := 0, center_offset := 0, areaX := 0, areaY := 0, areaW := 0,
    areaH := 0, realign_top_try := 0, dragging := false, uidCounter := 0 }

/-- The witness table for the offset-snapping claim: offset 7 in a
five-column grid snaps to 6. -/
def tblC3 : Table := { tblW with offset := 7 }

/-- A grouped thumbnail (group 7) at the strip origin. -/
def thA : Thumb :=
  { imgid := 1, rowid := 1, x := 0, y := 0, width := 100, height := 100,
    groupid := 7, grouped := true, mouse_over := false, selected := false,
    bleft := false, btop := false, bright := false, bbottom := false, uid := 0 }

/-- The second thumbnail of group 7, directly right of thA. -/
def thB : Thumb := { thA with imgid := 2, rowid := 2, x := 100, uid := 1 }

/-- A two-entry single-column filmstrip table whose entries share group 7. -/
def tblC4 : Table :=
  { tblW with mode := .filmstrip, thumbs_per_row := 1, list := [thA, thB] }

/-- An ungrouped singleton entry sitting at the last collection row. -/
def thC7 : Thumb :=
  { thA with imgid := 100, rowid := 10, groupid := 0, grouped := false }

/-- A single-column table holding only the last collection image. -/
def tblC7 : Table := { tblW with thumbs_per_row := 1, list := [thC7] }

/-- A filmstrip-mode variant of the witness table. -/
def tblC8 : Table := { tblW with mode := .filmstrip }

/-- A degenerate allocation: 10 px wide. -/
def envC9 : Env := { envW with allocW := 10 }

/-- A table carrying stale layout state, redrawn under the degenerate
allocation. -/
def tblC9 : Table := { tblW with view_width := 500, view_height := 220 }

/-- A concrete act-on environment: one active image (5) in group 7 with
members 5 and 6, grouping enabled, no group expanded. -/
def aenvW : AEnv :=
  { mouseover := 0, inside := true, active := [5], sel := fun _ _ => [3],
    groupOf := fun i => if i = 5 then some 7 else none, grouping := true,
    expanded := 0, hasCollection := true, members := fun g => if g = 7 then [5, 6] else [] }

/-- The act-on environment whose cache the counterexample reuses. -/
def aenvX : AEnv :=
  { mouseover := 0, inside := true, active := [1], sel := fun _ _ => [],
    groupOf := fun _ => none, grouping := false, expanded := 0,
    hasCollection := false, members := fun _ => [] }

/-- The same environment after the active image changed from 1 to 2 while
the mouse stayed inside the table. -/
def aenvY : AEnv := { aenvX with active := [2] }


theorem tdiv_mul_nonneg (a d : Int) (ha : 0 ≤ a) : 0 ≤ a.tdiv d * d := by
  rcases lt_trichotomy d 0 with hd | hd | hd
  · have h1 : a.tdiv d = -(a.tdiv (-d)) := by
      rw [← Int.tdiv_neg, neg_neg]
    have h2 : 0 ≤ a.tdiv (-d) := Int.tdiv_nonneg ha (by omega)
    rw [h1]
    have := mul_nonneg h2 (by omega : (0:Int) ≤ -d)
    nlinarith
  · subst hd
    simp
  · exact mul_nonneg (Int.tdiv_nonneg ha (by omega)) (by omega)

theorem snapOffset_ge_one (t : Table) (h : 1 ≤ t.offset) : 1 ≤ snapOffset t := by
  unfold snapOffset
  have := tdiv_mul_nonneg (t.offset - 1) t.thumbs_per_row (by omega)
  omega

theorem computeSizes_offset (e : Env) (t : Table) (f : Bool) :
    (computeSizes e t f).2.offset = t.offset := by
  unfold computeSizes
  split
  · rfl
  · split <;> (dsimp only; split <;> rfl)

theorem computeSizes_mode (e : Env) (t : Table) (f : Bool) :
    (computeSizes e t f).2.mode = t.mode := by
  unfold computeSizes
  split
  · rfl
  · split <;> (dsimp only; split <;> rfl)

theorem computeArea_offset (t : Table) : (computeArea t).offset = t.offset := rfl

theorem computeArea_mode (t : Table) : (computeArea t).mode = t.mode := rfl

theorem runQuery_offset (e : Env) (t : Table) (q : List (Int × Int)) (px py : Int) :
    (runQuery e t q px py).offset = t.offset := rfl

theorem redrawLayout_offset_ge_one (e : Env) (t : Table) (h : 1 ≤ t.offset) :
    1 ≤ (redrawLayout e t).offset := by
  unfold redrawLayout
  rcases hm : t.mode with _ | _
  · simp only [hm]
    exact snapOffset_ge_one _ (by simpa using h)
  · simp only [hm]
    simpa using h

theorem moveCommon_offset_ge_one (e : Env) (t : Table) (px py : Int)
    (h : 1 ≤ t.offset) : 1 ≤ (moveCommon e t px py).2.offset := by
  unfold moveCommon
  split
  · exact h
  · dsimp only
    split <;> exact le_max_left 1 _

theorem fullRedrawF_offset_ge_one :
    ∀ n : Nat,
      (∀ e t x y c, 1 ≤ t.offset → 1 ≤ (moveF n e t x y c).2.offset) ∧
      (∀ e t f, 1 ≤ t.offset → 1 ≤ (fullRedrawF n e t f).offset) ∧
      (∀ e t r, 1 ≤ t.offset → 1 ≤ (ensureRowF n e t r).2.offset) := by
  intro n
  induction n with
  | zero =>
    exact ⟨fun e t x y c h => by simpa [moveF] using h,
           fun e t f h => by simpa [fullRedrawF] using h,
           fun e t r h => by simpa [ensureRowF] using h⟩
  | succ n ih =>
    obtain ⟨ihm, ihr, ihe⟩ := ih
    refine ⟨fun e t x y c h => ?_, fun e t f h => ?_, fun e t r h => ?_⟩
    · -- moveF
      simp only [moveF]
      split
      · exact h
      · split
        · -- clamp branch
          split
          · -- filemanager
            split
            · exact h
            · split
              · split
                · split
                  · exact ihr _ _ _ h
                  · exact h
                · exact h
              · try dsimp only
                split
                · split
                  · exact h
                  · exact moveCommon_offset_ge_one _ _ _ _ h
                · split
                  · exact h
                  · exact moveCommon_offset_ge_one _ _ _ _ h
          · -- filmstrip
            split
            · exact h
            · split
              · exact h
              · try dsimp only
                split
                · exact h
                · exact moveCommon_offset_ge_one _ _ _ _ h
        · exact moveCommon_offset_ge_one _ _ _ _ h
    · -- fullRedrawF
      simp only [fullRedrawF]
      have hcs := computeSizes_offset e t f
      split
      · next heq =>
        have : (computeSizes e t f).2.offset = t.offset := hcs
        rw [heq] at this
        simp only at this
        omega
      · next t1 heq =>
        have ht1 : t1.offset = t.offset := by
          have : (computeSizes e t f).2.offset = t.offset := hcs
          rw [heq] at this
          simpa using this
        have hL : 1 ≤ (redrawLayout e t1).offset :=
          redrawLayout_offset_ge_one e t1 (by omega)
        split
        · -- force branch : list map keeps offset
          split
          · split
            · simpa using hL
            · exact ihe _ _ _ hL
          · simpa using hL
        · split
          · split
            · exact hL
            · exact ihe _ _ _ hL
          · exact hL
    · -- ensureRowF
      simp only [ensureRowF]
      have hstep : ∀ (y : Int),
          1 ≤ ((match moveF n e t 0 y true with
                | (true, t2) => ensureRowF n e t2 r
                | (false, t2) => (false, t2)) : Bool × Table).2.offset := by
        intro y
        rcases hmv : moveF n e t 0 y true with ⟨b, t2⟩
        have h2 : 1 ≤ t2.offset := by
          have hh := ihm e t 0 y true h
          rw [hmv] at hh
          exact hh
        cases b
        · exact h2
        · exact ihe e t2 r h2
      split
      · exact h
      · split
        · exact hstep _
        · split
          · exact hstep _
          · exact h

theorem setOffset_reject (fuel : Nat) (e : Env) (t : Table) (off : Int) (rd : Bool)
    (h : off < 1 ∨ off = t.offset) : setOffset fuel e t off rd = (false, t) := by
  unfold setOffset
  rw [if_pos h]

theorem setOffset_ge_one (fuel : Nat) (e : Env) (t : Table) (off : Int) (rd : Bool)
    (h : 1 ≤ t.offset) : 1 ≤ (setOffset fuel e t off rd).2.offset := by
  unfold setOffset
  split
  · exact h
  · next hc =>
    push_neg at hc
    dsimp only
    split
    · exact (fullRedrawF_offset_ge_one fuel).2.1 e _ true (by simp; omega)
    · simp
      omega

theorem collectionChanged_ge_one (fuel : Nat) (e : Env) (t : Table) (isReload : Bool)
    (imgs : List Int) (next : Int) :
    1 ≤ (collectionChangedF fuel e t isReload imgs next).offset := by
  have hF := (fullRedrawF_offset_ge_one fuel).2.1
  have hretarget : ∀ ta, 1 ≤ (reloadRetarget e ta imgs next).offset := by
    intro ta
    unfold reloadRetarget
    exact le_max_left 1 _
  have hrestore : ∀ old tc, 1 ≤ (tc : Table).offset →
      1 ≤ (reloadRestore fuel e old tc).offset := by
    intro old tc htc
    unfold reloadRestore
    split
    · dsimp only
      split
      · next hr => exact hF e _ true (by simp; omega)
      · exact htc
    · exact htc
  unfold collectionChangedF
  split
  · exact hrestore _ _ (hF e _ true (hretarget _))
  · exact hF e _ true (by simp)

theorem newTable_ge_one (confPos : Int) : 1 ≤ (newTable confPos).offset :=
  le_max_left 1 _

theorem snap_char (om z : Int) (hz : 1 ≤ z) (hom : 1 ≤ om) :
    ((om - 1).tdiv z) * z + 1 ≤ om ∧ ((((om - 1).tdiv z) * z + 1) - 1).tmod z = 0 ∧
    (∀ k : Int, 0 ≤ k → k * z + 1 ≤ om → k * z + 1 ≤ ((om - 1).tdiv z) * z + 1) := by
  have hdt : (om - 1).tdiv z = (om - 1) / z := Int.tdiv_eq_ediv (by omega) (by omega)
  rw [hdt]
  have hq0 : 0 ≤ (om - 1) / z := Int.ediv_nonneg (by omega) (by omega)
  refine ⟨?_, ?_, ?_⟩
  · have := Int.ediv_mul_le (om - 1) (by omega : z ≠ 0)
    omega
  · have h0 : (0:Int) ≤ (om - 1) / z * z := mul_nonneg hq0 (by omega)
    rw [add_sub_cancel_right, Int.tmod_eq_emod h0 (by omega)]
    exact Int.mul_emod_left _ _
  · intro k hk hkle
    have hk2 : k ≤ (om - 1) / z := (Int.le_ediv_iff_mul_le (by omega)).mpr (by omega)
    have := mul_le_mul_of_nonneg_right hk2 (by omega : (0:Int) ≤ z)
    omega

theorem computeSizes_true_fm (e : Env) (t : Table) (f : Bool)
    (h : (computeSizes e t f).1 = true) (hm : t.mode = .filemanager) :
    (computeSizes e t f).2.thumbs_per_row = e.zoom := by
  unfold computeSizes at h ⊢
  rw [hm] at h ⊢
  split at h
  · next hdeg => simp at h
  · next hdeg =>
    dsimp only at h ⊢
    split at h
    · next hcond =>
      rw [if_neg hdeg, if_pos hcond]
    · simp at h

theorem redrawLayout_offset_fm (e : Env) (t : Table) (hm : t.mode = .filemanager) :
    (redrawLayout e t).offset = snapOffset t := by
  unfold redrawLayout
  rw [hm]
  rfl

theorem redrawLayout_mode (e : Env) (t : Table) :
    (redrawLayout e t).mode = t.mode := by
  unfold redrawLayout
  rcases hm : t.mode with _ | _ <;> simp only [hm] <;> rfl

theorem grid_offset_snap (n : Nat) (e : Env) (t : Table) (force : Bool)
    (hm : t.mode = .filemanager) (hsel : e.selFirstId ≤ -1)
    (hcs : (computeSizes e t force).1 = true)
    (hz : 1 ≤ e.zoom) (hoff : 1 ≤ t.offset) :
    (fullRedrawF (n + 1) e t force).offset =
      ((t.offset - 1).tdiv e.zoom) * e.zoom + 1 ∧
    (fullRedrawF (n + 1) e t force).offset ≤ t.offset ∧
    ((fullRedrawF (n + 1) e t force).offset - 1).tmod e.zoom = 0 ∧
    (∀ k : Int, 0 ≤ k → k * e.zoom + 1 ≤ t.offset →
      k * e.zoom + 1 ≤ (fullRedrawF (n + 1) e t force).offset) := by
  have htpr := computeSizes_true_fm e t force hcs hm
  have hmode := computeSizes_mode e t force
  have hofs := computeSizes_offset e t force
  rcases hcse : computeSizes e t force with ⟨b, t1⟩
  rw [hcse] at hcs htpr hmode hofs
  simp only at hcs
  subst hcs
  simp only at htpr hmode hofs
  have hval : (fullRedrawF (n + 1) e t force).offset =
      ((t.offset - 1).tdiv e.zoom) * e.zoom + 1 := by
    simp only [fullRedrawF, hcse]
    rw [if_neg (fun hc : -1 < e.selFirstId ∧ (redrawLayout e t1).mode = Mode.filemanager =>
      absurd hc.1 (by omega))]
    have hro : (redrawLayout e t1).offset = snapOffset t1 :=
      redrawLayout_offset_fm e t1 (by rw [hmode, hm])
    have hsnap : snapOffset t1 = ((t.offset - 1).tdiv e.zoom) * e.zoom + 1 := by
      unfold snapOffset
      rw [htpr, hofs]
    split
    · simpa using hro.trans hsnap
    · exact hro.trans hsnap
  obtain ⟨h1, h2, h3⟩ := snap_char t.offset e.zoom hz hoff
  exact ⟨hval, by omega, by rw [hval]; exact h2, fun k hk hkle => by rw [hval]; exact h3 k hk hkle⟩

theorem mapPos_get (f : Nat → Thumb → Thumb) :
    ∀ (l : List Thumb) (i j : Nat),
      (mapPos f i l).get? j = (l.get? j).map (f (i + j)) := by
  intro l
  induction l with
  | nil => intro i j; simp [mapPos]
  | cons a as ih =>
    intro i j
    cases j with
    | zero => simp [mapPos]
    | succ j2 =>
      simp only [mapPos, List.get?_cons_succ, ih (i + 1) j2,
        show i + 1 + j2 = i + (j2 + 1) from by omega]

theorem clearPass_get (l : List Thumb) (imgid : Int) (j : Nat) :
    (clearPass l imgid).get? j = (l.get? j).map
      (fun th => { th with mouse_over := th.imgid == imgid,
                           bleft := false, btop := false,
                           bright := false, bbottom := false }) := by
  unfold clearPass
  exact List.get?_map _ _ _

theorem clearPass_length (l : List Thumb) (imgid : Int) :
    (clearPass l imgid).length = l.length := by
  unfold clearPass
  exact List.length_map _ _

theorem nbrSame_clearPass (l : List Thumb) (imgid g : Int) (j : Nat) :
    nbrSame (clearPass l imgid) (j : Int) g =
      (match l.get? j with
       | some p => p.groupid == g
       | none => false) := by
  unfold nbrSame
  rw [if_pos (by exact_mod_cast Nat.zero_le j : (0:Int) ≤ (j:Int))]
  rw [Int.toNat_natCast, clearPass_get]
  cases l.get? j <;> rfl

theorem strip_group_borders (t : Table) (imgid : Int)
    (hm : t.mode = .filmstrip) (htpr : t.thumbs_per_row = 1)
    (hg : 0 < hoverGroup t.list imgid) :
    ∀ (i : Nat) (th : Thumb), t.list[i]? = some th →
      th.groupid = hoverGroup t.list imgid →
      ∃ th2, (mouseOverCallback t imgid).list[i]? = some th2 ∧
        th2.btop = true ∧ th2.bbottom = true ∧
        (th2.bleft = true ↔
          (i = 0 ∨ ∀ p : Thumb, t.list[i - 1]? = some p → p.groupid ≠ th.groupid)) ∧
        (th2.bright = true ↔
          (t.list.length ≤ i + 1 ∨
           ∀ p : Thumb, t.list[i + 1]? = some p → p.groupid ≠ th.groupid)) := by
  intro i th hget hgrp
  set g := hoverGroup t.list imgid with hgdef
  set l1 := clearPass t.list imgid with hl1def
  have hres : (mouseOverCallback t imgid).list = mapPos (borderFor t l1 g) 0 l1 := by
    unfold mouseOverCallback
    rw [if_pos hg]
  have hclr := clearPass_get t.list imgid i
  rw [List.get?_eq_getElem?, List.get?_eq_getElem?, hget] at hclr
  set thc : Thumb := { th with mouse_over := th.imgid == imgid, bleft := false,
                               btop := false, bright := false, bbottom := false } with hthc
  have hl1get : l1.get? i = some thc := by
    show (clearPass t.list imgid).get? i = some thc
    rw [List.get?_eq_getElem?, hclr]
    rfl
  have hmap := mapPos_get (borderFor t l1 g) l1 0 i
  rw [hl1get] at hmap
  have hnbr : ∀ j : Nat, nbrSame l1 (j : Int) g =
      (match t.list[j]? with
       | some p => p.groupid == g
       | none => false) := by
    intro j
    show nbrSame (clearPass t.list imgid) (j : Int) g = _
    rw [nbrSame_clearPass t.list imgid g j]
    simp only [List.get?_eq_getElem?]
  refine ⟨borderFor t l1 g i thc, ?_, ?_⟩
  · rw [hres, ← List.get?_eq_getElem?, hmap]
    simp
  · have hmode_ne : ¬(t.mode ≠ Mode.filmstrip) := by rw [hm]; simp
    unfold borderFor
    rw [if_pos (by simpa [hthc] using hgrp)]
    rw [if_neg hmode_ne, if_pos hm, if_pos hm]
    rw [htpr]
    dsimp only
    refine ⟨rfl, rfl, ?_, ?_⟩
    · -- left border iff
      cases i with
      | zero =>
        have h0 : ((0 : Nat) : Int) - 1 = -1 := by norm_num
        rw [h0]
        norm_num
      | succ j =>
        have hj : ((j + 1 : Nat) : Int) - 1 = (j : Int) := by push_cast; ring
        rw [hj, hnbr j, hgrp, Nat.add_sub_cancel]
        rcases hp : t.list[j]? with _ | p
        · simp [hp]
        · simp only [hp]
          have hd : decide ((0:Int) ≤ (j:Int)) = true := by simp
          rw [hd, Bool.true_and]
          constructor
          · intro hb
            right
            intro p2 hp2
            injection hp2 with hq
            subst hq
            simpa using hb
          · intro hb
            have hpg : ¬(p.groupid = g) := by
              rcases hb with hb | hb
              · omega
              · exact hb p rfl
            simpa using hpg
    · -- right border iff
      have hlen : l1.length = t.list.length := by
        show (clearPass t.list imgid).length = t.list.length
        rw [clearPass_length]
      have hplus : ((i : Int) + 1) = ((i + 1 : Nat) : Int) := by push_cast; ring
      rw [hgrp, hplus, hnbr (i + 1)]
      have hd : decide ((0:Int) ≤ ((i + 1 : Nat) : Int)) = true := by
        simp only [decide_eq_true_eq]
        omega
      rw [hd, Bool.true_and]
      by_cases hin : i + 1 < t.list.length
      · have hlt : decide (((i + 1 : Nat) : Int) < (l1.length : Int)) = true := by
          rw [hlen]
          simp
          exact_mod_cast hin
        rw [hlt, Bool.true_and]
        rcases hp : t.list[i + 1]? with _ | p
        · rw [List.getElem?_eq_none_iff] at hp
          omega
        · simp only [hp]
          constructor
          · intro hb
            right
            intro p2 hp2
            injection hp2 with hq
            subst hq
            simpa using hb
          · intro hb
            have hpg : ¬(p.groupid = g) := by
              rcases hb with hb | hb
              · omega
              · exact hb p rfl
            simpa using hpg
      · have hlt : decide (((i + 1 : Nat) : Int) < (l1.length : Int)) = false := by
          rw [hlen]
          simp
          exact_mod_cast Nat.le_of_not_lt hin
        rw [hlt, Bool.false_and]
        constructor
        · intro _
          left
          omega
        · intro _
          rfl


theorem redrawStep_some (e : Env) (t2 : Table) (rv : Int × Int)
    (old acc : List Thumb) (px py o : Int) (c : Nat) (pr : Thumb × List Thumb)
    (hx : extractFirst (fun th => matchImg th rv.2) old = some pr) :
    redrawStep e t2 ⟨old, acc, px, py, o, c⟩ rv =
      ⟨pr.2,
       ({ pr.1 with rowid := rv.1, x := px, y := py, width := t2.thumb_size, height := t2.thumb_size }) :: acc,
       (posNext t2.geom px py).1, (posNext t2.geom px py).2,
       (if rv.1 = t2.offset then rv.2 else o), c⟩ := by
  simp only [redrawStep, hx]

theorem redrawStep_none (e : Env) (t2 : Table) (rv : Int × Int)
    (old acc : List Thumb) (px py o : Int) (c : Nat)
    (hx : extractFirst (fun th => matchImg th rv.2) old = none) :
    redrawStep e t2 ⟨old, acc, px, py, o, c⟩ rv =
      ⟨old, ({ mkThumb e t2.thumb_size rv.2 rv.1 c with x := px, y := py }) :: acc,
       (posNext t2.geom px py).1, (posNext t2.geom px py).2,
       (if rv.1 = t2.offset then rv.2 else o), c + 1⟩ := by
  simp only [redrawStep, hx]

theorem foldl_redrawStep_eq (e : Env) (t2 : Table) :
    ∀ (q : List (Int × Int)) (old acc : List Thumb) (px py o : Int) (c : Nat),
      q.foldl (redrawStep e t2) ⟨old, acc, px, py, o, c⟩ =
        ⟨(runSpec e t2.geom t2.thumb_size q old (px, py) c).leftover,
         (runSpec e t2.geom t2.thumb_size q old (px, py) c).produced.reverse ++ acc,
         (posAt t2.geom (px, py) q.length).1, (posAt t2.geom (px, py) q.length).2,
         oimgFold t2.offset q o,
         (runSpec e t2.geom t2.thumb_size q old (px, py) c).ctrOut⟩ := by
  intro q
  induction q with
  | nil => intro old acc px py o c; rfl
  | cons rv q ih =>
    intro old acc px py o c
    rw [List.foldl_cons]
    cases hx : extractFirst (fun th => matchImg th rv.2) old with
    | some pr =>
      rw [redrawStep_some e t2 rv old acc px py o c pr hx, ih]
      simp only [runSpec, hx]
      rw [List.reverse_cons, List.append_assoc]
      rfl
    | none =>
      rw [redrawStep_none e t2 rv old acc px py o c hx, ih]
      simp only [runSpec, hx]
      rw [List.reverse_cons, List.append_assoc]
      rfl

theorem extractFirst_prop (p : Thumb → Bool) :
    ∀ (l : List Thumb) (pr : Thumb × List Thumb),
      extractFirst p l = some pr → p pr.1 = true := by
  intro l
  induction l with
  | nil => intro pr h; simp [extractFirst] at h
  | cons b bs ih =>
    intro pr h
    unfold extractFirst at h
    split at h
    · cases h; assumption
    · cases hx : extractFirst p bs with
      | some pr2 => rw [hx] at h; cases h; exact ih pr2 hx
      | none => rw [hx] at h; cases h

theorem extractFirst_perm (p : Thumb → Bool) :
    ∀ (l : List Thumb) (pr : Thumb × List Thumb),
      extractFirst p l = some pr → l.Perm (pr.1 :: pr.2) := by
  intro l
  induction l with
  | nil => intro pr h; simp [extractFirst] at h
  | cons b bs ih =>
    intro pr h
    unfold extractFirst at h
    split at h
    · cases h; exact List.Perm.refl _
    · cases hx : extractFirst p bs with
      | some pr2 =>
        rw [hx] at h
        cases h
        exact ((ih pr2 hx).cons b).trans (List.Perm.swap _ _ _)
      | none => rw [hx] at h; cases h

theorem extractFirst_sublist (p : Thumb → Bool) :
    ∀ (l : List Thumb) (pr : Thumb × List Thumb),
      extractFirst p l = some pr → pr.2.Sublist l := by
  intro l
  induction l with
  | nil => intro pr h; simp [extractFirst] at h
  | cons b bs ih =>
    intro pr h
    unfold extractFirst at h
    split at h
    · cases h; exact List.sublist_cons_self b bs
    · cases hx : extractFirst p bs with
      | some pr2 =>
        rw [hx] at h
        cases h
        exact (ih pr2 hx).cons₂ b
      | none => rw [hx] at h; cases h

theorem extractFirst_none_all (p : Thumb → Bool) :
    ∀ (l : List Thumb), extractFirst p l = none → ∀ a ∈ l, p a = false := by
  intro l
  induction l with
  | nil => intro _ a ha; cases ha
  | cons b bs ih =>
    intro h a ha
    unfold extractFirst at h
    split at h
    · cases h
    · next hb =>
      cases hx : extractFirst p bs with
      | some pr2 => rw [hx] at h; cases h
      | none =>
        rcases List.mem_cons.mp ha with rfl | ha2
        · exact Bool.eq_false_iff.mpr hb
        · exact ih hx a ha2

theorem extractFirst_some_of_exists (p : Thumb → Bool) :
    ∀ (l : List Thumb), (∃ a ∈ l, p a = true) →
      ∃ pr, extractFirst p l = some pr := by
  intro l
  induction l with
  | nil => intro ⟨a, ha, _⟩; cases ha
  | cons b bs ih =>
    intro ⟨a, ha, hpa⟩
    unfold extractFirst
    split
    · exact ⟨(b, bs), rfl⟩
    · next hb =>
      have ha2 : a ∈ bs := by
        rcases List.mem_cons.mp ha with rfl | h2
        · exact absurd hpa hb
        · exact h2
      obtain ⟨pr2, hx⟩ := ih ⟨a, ha2, hpa⟩
      rw [hx]
      exact ⟨(pr2.1, b :: pr2.2), rfl⟩

theorem extractFirst_mem_rest (p : Thumb → Bool) (l : List Thumb)
    (pr : Thumb × List Thumb) (h : extractFirst p l = some pr)
    (x : Thumb) (hx : x ∈ l) (hne : x ≠ pr.1) : x ∈ pr.2 := by
  have hperm := extractFirst_perm p l pr h
  rcases List.mem_cons.mp (hperm.mem_iff.mp hx) with h2 | h2
  · exact absurd h2 hne
  · exact h2

theorem matchImg_true {th : Thumb} {v : Int} (h : matchImg th v = true) :
    th.imgid = v ∧ 0 ≤ th.imgid ∧ 0 ≤ v := by
  unfold matchImg at h
  split at h
  · cases h
  · next hc =>
    push_neg at hc
    exact ⟨by exact_mod_cast beq_iff_eq.mp h, hc.1, hc.2⟩

theorem matchImg_of {th : Thumb} {v : Int} (h1 : th.imgid = v) (h2 : 0 ≤ v) :
    matchImg th v = true := by
  unfold matchImg
  rw [if_neg (by omega : ¬(th.imgid < 0 ∨ v < 0))]
  exact beq_iff_eq.mpr h1

theorem nodup_map_eq {l : List Thumb} {f : Thumb → Int}
    (hnd : (l.map f).Nodup) {a b : Thumb} (ha : a ∈ l) (hb : b ∈ l)
    (hf : f a = f b) : a = b := by
  induction l with
  | nil => cases ha
  | cons x xs ih =>
    rw [List.map_cons, List.nodup_cons] at hnd
    rcases List.mem_cons.mp ha with rfl | ha2 <;>
      rcases List.mem_cons.mp hb with rfl | hb2
    · rfl
    · exact absurd (hf ▸ List.mem_map_of_mem f hb2) hnd.1
    · exact absurd (hf ▸ List.mem_map_of_mem f ha2) hnd.1
    · exact ih hnd.2 ha2 hb2

theorem nodup_map_ne {α : Type} [DecidableEq α] {l : List Thumb} {f : Thumb → α}
    (hnd : (l.map f).Nodup) {a b : Thumb} (ha : a ∈ l) (hb : b ∈ l)
    (hne : a ≠ b) : f a ≠ f b := by
  induction l with
  | nil => cases ha
  | cons x xs ih =>
    rw [List.map_cons, List.nodup_cons] at hnd
    rcases List.mem_cons.mp ha with rfl | ha2 <;>
      rcases List.mem_cons.mp hb with rfl | hb2
    · exact absurd rfl hne
    · intro hf
      exact hnd.1 (hf ▸ List.mem_map_of_mem f hb2)
    · intro hf
      exact hnd.1 (hf.symm ▸ List.mem_map_of_mem f ha2)
    · exact ih hnd.2 ha2 hb2

theorem thumb_eta (th : Thumb) (r x y w h : Int) (hr : th.rowid = r)
    (hx : th.x = x) (hy : th.y = y) (hw : th.width = w) (hh : th.height = h) :
    ({ th with rowid := r, x := x, y := y, width := w, height := h } : Thumb) = th := by
  cases th
  simp_all

theorem runSpec_aligned (e : Env) (g : Geom) (ts : Int) :
    ∀ (q : List (Int × Int)) (old : List Thumb) (p : Int × Int) (c : Nat),
      Aligned g ts p q (runSpec e g ts q old p c).produced := by
  intro q
  induction q with
  | nil => intro old p c; trivial
  | cons rv q ih =>
    intro old p c
    unfold runSpec
    cases hx : extractFirst (fun th => matchImg th rv.2) old with
    | some pr =>
      have hp := extractFirst_prop _ _ _ hx
      have hm := matchImg_true hp
      exact ⟨hm.1, rfl, rfl, rfl, rfl, rfl, ih pr.2 _ c⟩
    | none =>
      exact ⟨rfl, rfl, rfl, rfl, rfl, rfl, ih old _ (c + 1)⟩

theorem runSpec_idem (e : Env) (g : Geom) (ts : Int) :
    ∀ (q : List (Int × Int)) (L : List Thumb) (p : Int × Int) (c : Nat),
      Aligned g ts p q L → (∀ rv ∈ q, 0 ≤ rv.2) →
      runSpec e g ts q L p c = ⟨L, [], c⟩ := by
  intro q
  induction q with
  | nil =>
    intro L p c hA _
    cases L with
    | nil => rfl
    | cons th l => exact absurd hA (by simp [Aligned])
  | cons rv q ih =>
    intro L p c hA hq
    cases L with
    | nil => exact absurd hA (by simp [Aligned])
    | cons th l =>
      obtain ⟨h1, h2, h3, h4, h5, h6, h7⟩ := hA
      have hmt : matchImg th rv.2 = true :=
        matchImg_of h1 (hq rv (List.mem_cons_self rv q))
      have hx : extractFirst (fun th2 => matchImg th2 rv.2) (th :: l) = some (th, l) := by
        unfold extractFirst
        rw [if_pos hmt]
      unfold runSpec
      rw [hx]
      dsimp only
      rw [thumb_eta th rv.1 p.1 p.2 ts ts h2 h3 h4 h5 h6]
      rw [ih l (posNext g p.1 p.2) c h7 (fun rv2 h2 => hq rv2 (List.mem_cons_of_mem rv h2))]

theorem runSpec_uid_cases (e : Env) (g : Geom) (ts : Int) :
    ∀ (q : List (Int × Int)) (old : List Thumb) (p : Int × Int) (c : Nat)
      (th2 : Thumb), th2 ∈ (runSpec e g ts q old p c).produced →
      (∃ th ∈ old, th2.uid = th.uid) ∨ c ≤ th2.uid := by
  intro q
  induction q with
  | nil => intro old p c th2 h; simp [runSpec] at h
  | cons rv q ih =>
    intro old p c th2 h
    unfold runSpec at h
    cases hx : extractFirst (fun th => matchImg th rv.2) old with
    | some pr =>
      rw [hx] at h
      have hmem : pr.1 ∈ old := (extractFirst_perm _ _ _ hx).mem_iff.mpr
        (List.mem_cons_self _ _)
      rcases List.mem_cons.mp h with rfl | h2
      · exact Or.inl ⟨pr.1, hmem, rfl⟩
      · rcases ih pr.2 _ c th2 h2 with ⟨th, hth, he⟩ | hc
        · exact Or.inl ⟨th, (extractFirst_sublist _ _ _ hx).mem hth, he⟩
        · exact Or.inr hc
    | none =>
      rw [hx] at h
      rcases List.mem_cons.mp h with rfl | h2
      · exact Or.inr (le_refl _)
      · rcases ih old _ (c + 1) th2 h2 with hl | hc
        · exact Or.inl hl
        · exact Or.inr (by omega)

theorem runSpec_reuse (e : Env) (g : Geom) (ts : Int) :
    ∀ (q : List (Int × Int)) (old : List Thumb) (p : Int × Int) (c : Nat)
      (rv : Int × Int), rv ∈ q → (∀ rv2 ∈ q, 0 ≤ rv2.2) →
      (q.map Prod.snd).Nodup → (∀ th ∈ old, 0 ≤ th.imgid) →
      (old.map Thumb.imgid).Nodup →
      ∀ th ∈ old, th.imgid = rv.2 →
        ∃ th2 ∈ (runSpec e g ts q old p c).produced,
          th2.uid = th.uid ∧ th2.imgid = th.imgid := by
  intro q
  induction q with
  | nil => intro old p c rv h; cases h
  | cons rv0 q ih =>
    intro old p c rv hrv hq0 hqnd hold0 holdnd th hth hthim
    unfold runSpec
    rcases List.mem_cons.mp hrv with rfl | hrv2
    · -- the head row claims th
      have hmt : matchImg th rv.2 = true :=
        matchImg_of hthim (hq0 rv (List.mem_cons_self _ _))
      obtain ⟨pr, hx⟩ := extractFirst_some_of_exists (fun th3 => matchImg th3 rv.2) old ⟨th, hth, hmt⟩
      rw [hx]
      have hp := matchImg_true (extractFirst_prop _ _ _ hx)
      have hprmem : pr.1 ∈ old := (extractFirst_perm _ _ _ hx).mem_iff.mpr
        (List.mem_cons_self _ _)
      have hpreq : pr.1 = th := nodup_map_eq holdnd hprmem hth (by rw [hp.1, hthim])
      refine ⟨_, List.mem_cons_self _ _, ?_, ?_⟩
      · dsimp only
        rw [hpreq]
      · dsimp only
        rw [hpreq]
    · -- th is claimed by a later row
      cases hx : extractFirst (fun th3 => matchImg th3 rv0.2) old with
      | some pr =>
        have hp := matchImg_true (extractFirst_prop _ _ _ hx)
        have hne : th ≠ pr.1 := by
          intro hcon
          have : rv.2 ∈ q.map Prod.snd := List.mem_map_of_mem Prod.snd hrv2
          rw [List.map_cons, List.nodup_cons] at hqnd
          apply hqnd.1
          rw [← hp.1, ← hcon, hthim]
          exact this
        have hth2 : th ∈ pr.2 := extractFirst_mem_rest _ _ _ hx th hth hne
        have hsub := extractFirst_sublist _ _ _ hx
        obtain ⟨th2, hm2, he2⟩ := ih pr.2 (posNext g p.1 p.2) c rv hrv2
          (fun rv2 h2 => hq0 rv2 (List.mem_cons_of_mem _ h2))
          (by rw [List.map_cons, List.nodup_cons] at hqnd; exact hqnd.2)
          (fun th3 h3 => hold0 th3 (hsub.mem h3))
          (holdnd.sublist (hsub.map Thumb.imgid))
          th hth2 hthim
        exact ⟨th2, List.mem_cons_of_mem _ hm2, he2⟩
      | none =>
        obtain ⟨th2, hm2, he2⟩ := ih old (posNext g p.1 p.2) (c + 1) rv hrv2
          (fun rv2 h2 => hq0 rv2 (List.mem_cons_of_mem _ h2))
          (by rw [List.map_cons, List.nodup_cons] at hqnd; exact hqnd.2)
          hold0 holdnd th hth hthim
        exact ⟨th2, List.mem_cons_of_mem _ hm2, he2⟩

theorem runSpec_fresh_imgid (e : Env) (g : Geom) (ts : Int) :
    ∀ (q : List (Int × Int)) (old : List Thumb) (p : Int × Int) (c : Nat)
      (th2 : Thumb), th2 ∈ (runSpec e g ts q old p c).produced →
      (∀ th ∈ old, th.uid < c) → c ≤ th2.uid →
      th2.imgid ∈ q.map Prod.snd := by
  intro q
  induction q with
  | nil => intro old p c th2 h; simp [runSpec] at h
  | cons rv q ih =>
    intro old p c th2 h huid hc
    unfold runSpec at h
    cases hx : extractFirst (fun th => matchImg th rv.2) old with
    | some pr =>
      rw [hx] at h
      rcases List.mem_cons.mp h with rfl | h2
      · exfalso
        have : pr.1.uid < c := huid pr.1
          ((extractFirst_perm _ _ _ hx).mem_iff.mpr (List.mem_cons_self _ _))
        simp only at hc
        omega
      · have hsub := extractFirst_sublist _ _ _ hx
        exact List.mem_cons_of_mem _
          (ih pr.2 _ c th2 h2 (fun th3 h3 => huid th3 (hsub.mem h3)) hc)
    | none =>
      rw [hx] at h
      rcases List.mem_cons.mp h with rfl | h2
      · exact List.mem_cons_self _ _
      · have hc2 : c + 1 ≤ th2.uid := by
          rcases runSpec_uid_cases e g ts q old _ (c + 1) th2 h2 with ⟨th3, h3, he⟩ | hcc
          · have := huid th3 h3
            omega
          · exact hcc
        exact List.mem_cons_of_mem _
          (ih old _ (c + 1) th2 h2 (fun th3 h3 => by have := huid th3 h3; omega) hc2)

theorem runSpec_fresh (e : Env) (g : Geom) (ts : Int) :
    ∀ (q : List (Int × Int)) (old : List Thumb) (p : Int × Int) (c : Nat),
      (∀ rv ∈ q, 0 ≤ rv.2) → (q.map Prod.snd).Nodup →
      (∀ th ∈ old, 0 ≤ th.imgid) → (∀ th ∈ old, th.uid < c) →
      ∀ th2 ∈ (runSpec e g ts q old p c).produced, c ≤ th2.uid →
        ∀ th ∈ old, th.imgid ≠ th2.imgid := by
  intro q
  induction q with
  | nil => intro old p c _ _ _ _ th2 h; simp [runSpec] at h
  | cons rv q ih =>
    intro old p c hq0 hqnd hold0 huid th2 h hc th hth
    unfold runSpec at h
    cases hx : extractFirst (fun th3 => matchImg th3 rv.2) old with
    | some pr =>
      rw [hx] at h
      have hsub := extractFirst_sublist _ _ _ hx
      rcases List.mem_cons.mp h with rfl | h2
      · exfalso
        have : pr.1.uid < c := huid pr.1
          ((extractFirst_perm _ _ _ hx).mem_iff.mpr (List.mem_cons_self _ _))
        simp only at hc
        omega
      · by_cases hne : th = pr.1
        · -- th was claimed by the head row; a fresh tail entry has a tail imgid
          have himg : th2.imgid ∈ q.map Prod.snd :=
            runSpec_fresh_imgid e g ts q pr.2 _ c th2 h2
              (fun th3 h3 => huid th3 (hsub.mem h3)) hc
          have hp := matchImg_true (extractFirst_prop _ _ _ hx)
          rw [List.map_cons, List.nodup_cons] at hqnd
          intro hcon
          apply hqnd.1
          rw [← hp.1, ← hne, hcon]
          exact himg
        · exact ih pr.2 _ c
            (fun rv2 h2b => hq0 rv2 (List.mem_cons_of_mem _ h2b))
            (by rw [List.map_cons, List.nodup_cons] at hqnd; exact hqnd.2)
            (fun th3 h3 => hold0 th3 (hsub.mem h3))
            (fun th3 h3 => huid th3 (hsub.mem h3))
            th2 h2 hc th (extractFirst_mem_rest _ _ _ hx th hth hne)
    | none =>
      rw [hx] at h
      rcases List.mem_cons.mp h with rfl | h2
      · have hall := extractFirst_none_all _ old hx th hth
        have h0 : 0 ≤ th.imgid := hold0 th hth
        have hv : 0 ≤ rv.2 := hq0 rv (List.mem_cons_self _ _)
        intro hcon
        rw [matchImg_of (by simpa using hcon) hv] at hall
        cases hall
      · have hc2 : c + 1 ≤ th2.uid := by
          rcases runSpec_uid_cases e g ts q old _ (c + 1) th2 h2 with ⟨th3, h3, he⟩ | hcc
          · have := huid th3 h3
            omega
          · exact hcc
        exact ih old _ (c + 1)
          (fun rv2 h2b => hq0 rv2 (List.mem_cons_of_mem _ h2b))
          (by rw [List.map_cons, List.nodup_cons] at hqnd; exact hqnd.2)
          hold0 (fun th3 h3 => by have := huid th3 h3; omega)
          th2 h2 hc2 th hth

theorem runSpec_destroyed (e : Env) (g : Geom) (ts : Int) :
    ∀ (q : List (Int × Int)) (old : List Thumb) (p : Int × Int) (c : Nat),
      (old.map Thumb.uid).Nodup → (∀ th ∈ old, th.uid < c) →
      ∀ th ∈ old, th.imgid ∉ q.map Prod.snd →
        ∀ th2 ∈ (runSpec e g ts q old p c).produced, th2.uid ≠ th.uid := by
  intro q
  induction q with
  | nil => intro old p c _ _ th _ _ th2 h; simp [runSpec] at h
  | cons rv q ih =>
    intro old p c hundnd huid th hth hnotin th2 h
    unfold runSpec at h
    cases hx : extractFirst (fun th3 => matchImg th3 rv.2) old with
    | some pr =>
      rw [hx] at h
      have hsub := extractFirst_sublist _ _ _ hx
      have hp := matchImg_true (extractFirst_prop _ _ _ hx)
      have hprmem : pr.1 ∈ old := (extractFirst_perm _ _ _ hx).mem_iff.mpr
        (List.mem_cons_self _ _)
      have hne : th ≠ pr.1 := by
        intro hcon
        apply hnotin
        rw [hcon, hp.1]
        exact List.mem_cons_self _ _
      rcases List.mem_cons.mp h with rfl | h2
      · -- the reused head carries the uid of pr.1 ≠ th
        simp only
        exact (nodup_map_ne hundnd hprmem hth (fun hcon => hne hcon.symm))
      · exact ih pr.2 _ c
          (hundnd.sublist (hsub.map Thumb.uid))
          (fun th3 h3 => huid th3 (hsub.mem h3))
          th (extractFirst_mem_rest _ _ _ hx th hth hne)
          (fun hcon => hnotin (List.mem_cons_of_mem _ hcon))
          th2 h2
    | none =>
      rw [hx] at h
      rcases List.mem_cons.mp h with rfl | h2
      · have := huid th hth
        simp only [mkThumb]
        omega
      · exact ih old _ (c + 1) hundnd
          (fun th3 h3 => by have := huid th3 h3; omega)
          th hth (fun hcon => hnotin (List.mem_cons_of_mem _ hcon))
          th2 h2

theorem computeSizes_list (e : Env) (t : Table) (f : Bool) :
    (computeSizes e t f).2.list = t.list := by
  unfold computeSizes
  split
  · rfl
  · split <;> (dsimp only; split <;> rfl)

theorem computeSizes_ctr (e : Env) (t : Table) (f : Bool) :
    (computeSizes e t f).2.uidCounter = t.uidCounter := by
  unfold computeSizes
  split
  · rfl
  · split <;> (dsimp only; split <;> rfl)

theorem redrawLayout_eq_fm (e : Env) (t0 : Table) (hm : t0.mode = .filemanager) :
    redrawLayout e t0 =
      runQuery e ({ t0 with dragging := false, offset := snapOffset t0 })
        (queryGE e.collection (snapOffset t0) (t0.rows * t0.thumbs_per_row))
        t0.center_offset 0 := by
  unfold redrawLayout
  rw [hm]
  rfl

theorem redrawLayout_eq_strip (e : Env) (t0 : Table) (hm : t0.mode = .filmstrip) :
    redrawLayout e t0 =
      runQuery e ({ t0 with dragging := false })
        (queryGE e.collection (stripStart t0) (t0.rows * t0.thumbs_per_row - stripEmpty t0))
        ((t0.view_width - t0.rows * t0.thumb_size).tdiv 2 + stripEmpty t0 * t0.thumb_size) 0 := by
  unfold redrawLayout
  rw [hm]
  rfl

theorem runQuery_eq (e : Env) (t2 : Table) (q : List (Int × Int)) (px py : Int) :
    runQuery e t2 q px py =
      computeArea { t2 with
        list := (runSpec e t2.geom t2.thumb_size q t2.list (px, py) t2.uidCounter).produced,
        offset_imgid := oimgFold t2.offset q t2.offset_imgid,
        uidCounter := (runSpec e t2.geom t2.thumb_size q t2.list (px, py) t2.uidCounter).ctrOut } := by
  unfold runQuery
  rw [foldl_redrawStep_eq]
  dsimp only
  rw [List.append_nil, List.reverse_reverse]

theorem colRows_map_snd (c : List Int) : (colRows c).map Prod.snd = c := by
  unfold colRows
  rw [List.map_map]
  exact List.enum_map_snd c

theorem queryGE_sublist (c : List Int) (off lim : Int) :
    (queryGE c off lim).Sublist (colRows c) := by
  unfold queryGE
  split
  · exact List.filter_sublist _
  · exact (List.take_sublist _ _).trans (List.filter_sublist _)

theorem queryGE_snd_sublist (c : List Int) (off lim : Int) :
    ((queryGE c off lim).map Prod.snd).Sublist c := by
  have := (queryGE_sublist c off lim).map Prod.snd
  rwa [colRows_map_snd] at this

theorem queryGE_snd_nonneg (c : List Int) (off lim : Int)
    (h : ∀ v ∈ c, 0 ≤ v) : ∀ rv ∈ queryGE c off lim, 0 ≤ rv.2 := by
  intro rv hrv
  exact h rv.2 ((queryGE_snd_sublist c off lim).mem (List.mem_map_of_mem Prod.snd hrv))

theorem queryGE_snd_nodup (c : List Int) (off lim : Int) (h : c.Nodup) :
    ((queryGE c off lim).map Prod.snd).Nodup :=
  h.sublist (queryGE_snd_sublist c off lim)

theorem computeArea_list (t : Table) : (computeArea t).list = t.list := rfl

theorem fullRedrawF_eq_layout (n : Nat) (e : Env) (t : Table) (force : Bool)
    (hcs : (computeSizes e t force).1 = true)
    (hsel : t.mode = .filemanager → e.selFirstId ≤ -1) :
    fullRedrawF (n + 1) e t force =
      (if force then selMap e (redrawLayout e (computeSizes e t force).2)
       else redrawLayout e (computeSizes e t force).2) := by
  have hmode := computeSizes_mode e t force
  rcases hcse : computeSizes e t force with ⟨b, t1⟩
  rw [hcse] at hcs hmode
  simp only at hcs hmode
  subst hcs
  simp only [fullRedrawF, hcse]
  have hng : ¬(-1 < e.selFirstId ∧ (redrawLayout e t1).mode = Mode.filemanager) := by
    intro hc
    rw [redrawLayout_mode, hmode] at hc
    have := hsel hc.2
    omega
  rw [if_neg hng]

theorem aligned_map_sel (g : Geom) (ts : Int) (e : Env) :
    ∀ (q : List (Int × Int)) (p : Int × Int) (l : List Thumb),
      Aligned g ts p q l →
      Aligned g ts p q
        (l.map (fun th => { th with selected := e.selectedOf th.imgid })) := by
  intro q
  induction q with
  | nil =>
    intro p l hA
    cases l with
    | nil => trivial
    | cons th l2 => exact absurd hA (by simp [Aligned])
  | cons rv q ih =>
    intro p l hA
    cases l with
    | nil => exact absurd hA (by simp [Aligned])
    | cons th l2 =>
      obtain ⟨h1, h2, h3, h4, h5, h6, h7⟩ := hA
      exact ⟨h1, h2, h3, h4, h5, h6, ih _ l2 h7⟩
theorem full_redraw_reuse_main (n : Nat) (e : Env) (t : Table) (force : Bool)
    (hsel : t.mode = .filemanager → e.selFirstId ≤ -1)
    (hcs : (computeSizes e t force).1 = true)
    (hcol0 : ∀ v ∈ e.collection, 0 ≤ v)
    (hcolnd : e.collection.Nodup)
    (hlist0 : ∀ th ∈ t.list, 0 ≤ th.imgid)
    (hlistnd : (t.list.map Thumb.imgid).Nodup)
    (huidnd : (t.list.map Thumb.uid).Nodup)
    (huidlt : ∀ th ∈ t.list, th.uid < t.uidCounter) :
    Aligned (computeSizes e t force).2.geom (computeSizes e t force).2.thumb_size
      (startPos (computeSizes e t force).2)
      (desiredQuery e (computeSizes e t force).2)
      (fullRedrawF (n + 1) e t force).list
    ∧ (∀ rv ∈ desiredQuery e (computeSizes e t force).2, ∀ th ∈ t.list,
         th.imgid = rv.2 →
         ∃ th2 ∈ (fullRedrawF (n + 1) e t force).list,
           th2.uid = th.uid ∧ th2.imgid = th.imgid)
    ∧ (∀ th2 ∈ (fullRedrawF (n + 1) e t force).list, t.uidCounter ≤ th2.uid →
         ∀ th ∈ t.list, th.imgid ≠ th2.imgid)
    ∧ (∀ th ∈ t.list,
         th.imgid ∉ (desiredQuery e (computeSizes e t force).2).map Prod.snd →
         ∀ th2 ∈ (fullRedrawF (n + 1) e t force).list, th2.uid ≠ th.uid) := by
  have hF := fullRedrawF_eq_layout n e t force hcs hsel
  have hmode := computeSizes_mode e t force
  have hlist := computeSizes_list e t force
  have hctr := computeSizes_ctr e t force
  set t1 := (computeSizes e t force).2 with ht1
  -- reduce the result list to the runSpec output, possibly selection-mapped
  have hres : (fullRedrawF (n + 1) e t force).list =
      (if force then
        List.map (fun th => { th with selected := e.selectedOf th.imgid })
       else id)
      ((runSpec e t1.geom t1.thumb_size (desiredQuery e t1) t1.list
          (startPos t1) t1.uidCounter).produced) := by
    rw [hF]
    rcases hm : t1.mode with _ | _
    · have hq : desiredQuery e t1 =
          queryGE e.collection (snapOffset t1) (t1.rows * t1.thumbs_per_row) := by
        unfold desiredQuery
        rw [hm]
      have hst : startPos t1 = (t1.center_offset, 0) := by
        unfold startPos
        rw [hm]
      rw [redrawLayout_eq_fm e t1 hm, runQuery_eq, hq, hst]
      cases force
      · rfl
      · rfl
    · have hq : desiredQuery e t1 =
          queryGE e.collection (stripStart t1)
            (t1.rows * t1.thumbs_per_row - stripEmpty t1) := by
        unfold desiredQuery
        rw [hm]
      have hst : startPos t1 =
          ((t1.view_width - t1.rows * t1.thumb_size).tdiv 2 +
            stripEmpty t1 * t1.thumb_size, 0) := by
        unfold startPos
        rw [hm]
      rw [redrawLayout_eq_strip e t1 hm, runQuery_eq, hq, hst]
      cases force
      · rfl
      · rfl
  have hqq : ∃ off lim, desiredQuery e t1 = queryGE e.collection off lim := by
    rcases hm : t1.mode with _ | _
    · exact ⟨snapOffset t1, t1.rows * t1.thumbs_per_row, by unfold desiredQuery; rw [hm]⟩
    · exact ⟨stripStart t1, t1.rows * t1.thumbs_per_row - stripEmpty t1,
        by unfold desiredQuery; rw [hm]⟩
  obtain ⟨qoff, qlim, hqe⟩ := hqq
  have hq0 : ∀ rv ∈ desiredQuery e t1, 0 ≤ rv.2 := by
    rw [hqe]
    exact queryGE_snd_nonneg e.collection qoff qlim hcol0
  have hqnd : ((desiredQuery e t1).map Prod.snd).Nodup := by
    rw [hqe]
    exact queryGE_snd_nodup e.collection qoff qlim hcolnd
  have hold0 : ∀ th ∈ t1.list, 0 ≤ th.imgid := by
    rw [hlist]
    exact hlist0
  have holdnd : (t1.list.map Thumb.imgid).Nodup := by
    rw [hlist]
    exact hlistnd
  have holdund : (t1.list.map Thumb.uid).Nodup := by
    rw [hlist]
    exact huidnd
  have holduid : ∀ th ∈ t1.list, th.uid < t1.uidCounter := by
    rw [hlist, hctr]
    exact huidlt
  refine ⟨?_, ?_, ?_, ?_⟩
  · rw [hres]
    cases force
    · simp only [if_neg Bool.false_ne_true, id]
      exact runSpec_aligned e t1.geom t1.thumb_size _ _ _ _
    · simp only [if_pos rfl]
      exact aligned_map_sel t1.geom t1.thumb_size e _ _ _
        (runSpec_aligned e t1.geom t1.thumb_size _ _ _ _)
  · intro rv hrv th hth him
    have hth1 : th ∈ t1.list := by rw [hlist]; exact hth
    obtain ⟨th2, hm2, hu, hi⟩ :=
      runSpec_reuse e t1.geom t1.thumb_size (desiredQuery e t1) t1.list
        (startPos t1) t1.uidCounter rv hrv hq0 hqnd hold0 holdnd th hth1 him
    rw [hres]
    cases force
    · exact ⟨th2, hm2, hu, hi⟩
    · exact ⟨{ th2 with selected := e.selectedOf th2.imgid },
        List.mem_map_of_mem _ hm2, hu, hi⟩
  · intro th2 h2 hc th hth
    have hth1 : th ∈ t1.list := by rw [hlist]; exact hth
    rw [hres] at h2
    have hc1 : t1.uidCounter ≤ th2.uid := by rw [hctr]; exact hc
    cases force
    · simp only [if_neg Bool.false_ne_true, id] at h2
      exact runSpec_fresh e t1.geom t1.thumb_size (desiredQuery e t1) t1.list
        (startPos t1) t1.uidCounter hq0 hqnd hold0 holduid th2 h2 hc1 th hth1
    · simp only [if_pos rfl] at h2
      obtain ⟨th3, h3, hth3⟩ := List.mem_map.mp h2
      have he3 : th2.uid = th3.uid := by rw [← hth3]
      have hi3 : th2.imgid = th3.imgid := by rw [← hth3]
      rw [hi3]
      exact runSpec_fresh e t1.geom t1.thumb_size (desiredQuery e t1) t1.list
        (startPos t1) t1.uidCounter hq0 hqnd hold0 holduid th3 h3
        (by rw [← he3]; exact hc1) th hth1
  · intro th hth hnot th2 h2
    have hth1 : th ∈ t1.list := by rw [hlist]; exact hth
    rw [hres] at h2
    cases force
    · simp only [if_neg Bool.false_ne_true, id] at h2
      exact runSpec_destroyed e t1.geom t1.thumb_size (desiredQuery e t1) t1.list
        (startPos t1) t1.uidCounter holdund holduid th hth1 hnot th2 h2
    · simp only [if_pos rfl] at h2
      obtain ⟨th3, h3, hth3⟩ := List.mem_map.mp h2
      have he3 : th2.uid = th3.uid := by rw [← hth3]
      rw [he3]
      exact runSpec_destroyed e t1.geom t1.thumb_size (desiredQuery e t1) t1.list
        (startPos t1) t1.uidCounter holdund holduid th hth1 hnot th3 h3
theorem computeSizes_false_refix (e : Env) (t : Table) (force : Bool) (t1 : Table)
    (hcse : computeSizes e t force = (false, t1)) :
    computeSizes e t1 force = (false, t1) := by
  unfold computeSizes at hcse ⊢
  split at hcse
  · next hdeg =>
    cases hcse
    rw [if_pos hdeg]
  · next hdeg =>
    rw [if_neg ?_]
    · rcases hm : t.mode with _ | _ <;> rw [hm] at hcse
      · dsimp only at hcse
        split at hcse
        · cases hcse
        · next hcond =>
          cases hcse
          rw [hm]
          dsimp only
          rw [if_neg hcond]
      · dsimp only at hcse
        split at hcse
        · cases hcse
        · next hcond =>
          cases hcse
          rw [hm]
          dsimp only
          rw [if_neg hcond]
    · -- t1 keeps t's view dims in the non-degenerate no-change case
      rcases hm : t.mode with _ | _ <;> rw [hm] at hcse <;> dsimp only at hcse <;>
        split at hcse <;> first | (cases hcse; exact hdeg) | cases hcse
theorem table_update7_eta (tp : Table) (m : Mode) (a vw vh d r c : Int)
    (h0 : tp.mode = m)
    (h1 : tp.thumbs_per_row = a) (h2 : tp.view_width = vw) (h3 : tp.view_height = vh)
    (h4 : tp.thumb_size = d) (h5 : tp.rows = r) (h6 : tp.center_offset = c) :
    ({ tp with mode := m, thumbs_per_row := a, view_width := vw, view_height := vh,
               thumb_size := d, rows := r, center_offset := c } : Table) = tp := by
  subst h0 h1 h2 h3 h4 h5 h6
  rfl

theorem computeSizes_true_refix (e : Env) (t : Table) (force : Bool) (t1 tp : Table)
    (hcse : computeSizes e t force = (true, t1))
    (hm : tp.mode = t1.mode)
    (h1 : tp.thumbs_per_row = t1.thumbs_per_row) (h2 : tp.view_width = t1.view_width)
    (h3 : tp.view_height = t1.view_height) (h4 : tp.thumb_size = t1.thumb_size)
    (h5 : tp.rows = t1.rows) (h6 : tp.center_offset = t1.center_offset) :
    computeSizes e tp force = (if force then (true, tp) else (false, tp)) := by
  unfold computeSizes at hcse ⊢
  split at hcse
  · injection hcse with hb _
    cases hb
  · next hdeg =>
    rw [if_neg hdeg]
    rcases hmode : t.mode with _ | _ <;> rw [hmode] at hcse <;> dsimp only at hcse
    · split at hcse
      · injection hcse with _ ht1
        subst ht1
        dsimp only at hm h1 h2 h3 h4 h5 h6
        rw [hm]
        dsimp only
        cases force
        · rw [if_neg ?hng]
          case hng =>
            rintro (hb | hw | hh | hz)
            · cases hb
            · exact hw h2.symm
            · exact hh h3.symm
            · exact hz h1.symm
          rfl
        · rw [if_pos (Or.inl rfl)]
          exact congrArg (Prod.mk true) (table_update7_eta tp _ _ _ _ _ _ _ hm h1 h2 h3 h4 h5 h6)
      · injection hcse with hb _
        cases hb
    · split at hcse
      · injection hcse with _ ht1
        subst ht1
        dsimp only at hm h1 h2 h3 h4 h5 h6
        rw [hm]
        dsimp only
        cases force
        · rw [if_neg ?hng2]
          case hng2 =>
            rintro (hb | hw | hh)
            · cases hb
            · exact hw h2.symm
            · exact hh h3.symm
          rfl
        · rw [if_pos (Or.inl rfl)]
          exact congrArg (Prod.mk true) (table_update7_eta tp _ _ _ _ _ _ _ hm h1 h2 h3 h4 h5 h6)
      · injection hcse with hb _
        cases hb
theorem snap_idem_val (om d : Int) :
    (((om - 1).tdiv d * d + 1 - 1).tdiv d) * d + 1 = (om - 1).tdiv d * d + 1 := by
  rcases eq_or_ne d 0 with hd | hd
  · subst hd
    simp
  · have h1 : (om - 1).tdiv d * d + 1 - 1 = (om - 1).tdiv d * d := by ring
    rw [h1, Int.mul_tdiv_cancel _ hd]

theorem oimgFold_cons (off : Int) (rv : Int × Int) (q : List (Int × Int)) (o : Int) :
    oimgFold off (rv :: q) o = oimgFold off q (if rv.1 = off then rv.2 else o) := rfl

theorem oimgFold_no_match (off : Int) :
    ∀ (q : List (Int × Int)) (o : Int), (∀ rv ∈ q, rv.1 ≠ off) → oimgFold off q o = o := by
  intro q
  induction q with
  | nil => intro o _; rfl
  | cons rv q ih =>
    intro o hq
    rw [oimgFold_cons, if_neg (hq rv (List.mem_cons_self rv q)), ih]
    intro rv2 h2
    exact hq rv2 (List.mem_cons_of_mem rv h2)

theorem oimgFold_const (off : Int) :
    ∀ (q : List (Int × Int)), (∃ rv ∈ q, rv.1 = off) →
      ∀ (o1 o2 : Int), oimgFold off q o1 = oimgFold off q o2 := by
  intro q
  induction q with
  | nil => rintro ⟨rv, h, _⟩; cases h
  | cons rv q ih =>
    rintro ⟨rv2, h2, hoff⟩ o1 o2
    rcases List.mem_cons.mp h2 with h2 | h2
    · subst h2
      rw [oimgFold_cons, oimgFold_cons, if_pos hoff, if_pos hoff]
    · exact (oimgFold_cons off rv q _).trans
        ((ih ⟨rv2, h2, hoff⟩ _ _).trans (oimgFold_cons off rv q _).symm)

theorem oimgFold_idem (off : Int) (q : List (Int × Int)) (o : Int) :
    oimgFold off q (oimgFold off q o) = oimgFold off q o := by
  by_cases hex : ∃ rv ∈ q, rv.1 = off
  · exact oimgFold_const off q hex _ _
  · push_neg at hex
    rw [oimgFold_no_match off q _ hex, oimgFold_no_match off q _ hex]

theorem selMap_selMap (e : Env) (X : Table) :
    selMap e (selMap e X) = selMap e X := by
  unfold selMap
  dsimp only
  rw [List.map_map]
  rfl

theorem computeArea_selMap (e : Env) (X : Table) :
    computeArea (selMap e X) = selMap e (computeArea X) := by
  unfold computeArea selMap
  dsimp only
  rw [List.foldl_map, List.foldl_map, List.foldl_map, List.foldl_map]

theorem computeArea_computeArea (X : Table) :
    computeArea (computeArea X) = computeArea X := rfl

theorem table_drag_off_eta (tp : Table) (o : Int) (hd : tp.dragging = false)
    (ho : tp.offset = o) :
    ({ tp with dragging := false, offset := o } : Table) = tp := by
  subst ho
  rw [← hd]

theorem table_drag_eta (tp : Table) (hd : tp.dragging = false) :
    ({ tp with dragging := false } : Table) = tp := by
  rw [← hd]

theorem redrawLayout_fix_fm (e : Env) (tp : Table)
    (hm : tp.mode = .filemanager)
    (hdrag : tp.dragging = false)
    (hsnap : snapOffset tp = tp.offset)
    (hA : Aligned tp.geom tp.thumb_size (tp.center_offset, 0)
      (queryGE e.collection (snapOffset tp) (tp.rows * tp.thumbs_per_row)) tp.list)
    (hq0 : ∀ rv ∈ queryGE e.collection (snapOffset tp) (tp.rows * tp.thumbs_per_row),
      0 ≤ rv.2)
    (hoi : oimgFold tp.offset
      (queryGE e.collection (snapOffset tp) (tp.rows * tp.thumbs_per_row))
      tp.offset_imgid = tp.offset_imgid)
    (harea : computeArea tp = tp) :
    redrawLayout e tp = tp := by
  rw [redrawLayout_eq_fm e tp hm, table_drag_off_eta tp _ hdrag hsnap.symm, runQuery_eq,
    runSpec_idem e tp.geom tp.thumb_size _ _ _ _ hA hq0, hoi]
  exact harea

theorem redrawLayout_fix_strip (e : Env) (tp : Table)
    (hm : tp.mode = .filmstrip)
    (hdrag : tp.dragging = false)
    (hA : Aligned tp.geom tp.thumb_size
      ((tp.view_width - tp.rows * tp.thumb_size).tdiv 2 + stripEmpty tp * tp.thumb_size, 0)
      (queryGE e.collection (stripStart tp) (tp.rows * tp.thumbs_per_row - stripEmpty tp))
      tp.list)
    (hq0 : ∀ rv ∈ queryGE e.collection (stripStart tp)
      (tp.rows * tp.thumbs_per_row - stripEmpty tp), 0 ≤ rv.2)
    (hoi : oimgFold tp.offset
      (queryGE e.collection (stripStart tp) (tp.rows * tp.thumbs_per_row - stripEmpty tp))
      tp.offset_imgid = tp.offset_imgid)
    (harea : computeArea tp = tp) :
    redrawLayout e tp = tp := by
  rw [redrawLayout_eq_strip e tp hm, table_drag_eta tp hdrag, runQuery_eq,
    runSpec_idem e tp.geom tp.thumb_size _ _ _ _ hA hq0, hoi]
  exact harea
theorem selMap_mode (e : Env) (x : Table) : (selMap e x).mode = x.mode := rfl

theorem selMap_geom (e : Env) (x : Table) : (selMap e x).geom = x.geom := rfl

theorem selMap_thumb_size (e : Env) (x : Table) :
    (selMap e x).thumb_size = x.thumb_size := rfl

theorem selMap_center (e : Env) (x : Table) :
    (selMap e x).center_offset = x.center_offset := rfl

theorem selMap_rows (e : Env) (x : Table) : (selMap e x).rows = x.rows := rfl

theorem selMap_tpr (e : Env) (x : Table) :
    (selMap e x).thumbs_per_row = x.thumbs_per_row := rfl

theorem selMap_vw (e : Env) (x : Table) : (selMap e x).view_width = x.view_width := rfl

theorem selMap_vh (e : Env) (x : Table) : (selMap e x).view_height = x.view_height := rfl

theorem selMap_offset (e : Env) (x : Table) : (selMap e x).offset = x.offset := rfl

theorem selMap_offset_imgid (e : Env) (x : Table) :
    (selMap e x).offset_imgid = x.offset_imgid := rfl

theorem selMap_dragging (e : Env) (x : Table) : (selMap e x).dragging = x.dragging := rfl

theorem selMap_list (e : Env) (x : Table) :
    (selMap e x).list
      = x.list.map (fun th => { th with selected := e.selectedOf th.imgid }) := rfl

theorem redrawLayout_geom_eq (e : Env) (x : Table) :
    (redrawLayout e x).geom = x.geom := by
  rcases hm : x.mode with _ | _
  · rw [redrawLayout_eq_fm e x hm]
    rfl
  · rw [redrawLayout_eq_strip e x hm]
    rfl

theorem redrawLayout_geom_fields (e : Env) (x : Table) :
    (redrawLayout e x).thumbs_per_row = x.thumbs_per_row ∧
    (redrawLayout e x).view_width = x.view_width ∧
    (redrawLayout e x).view_height = x.view_height ∧
    (redrawLayout e x).thumb_size = x.thumb_size ∧
    (redrawLayout e x).rows = x.rows ∧
    (redrawLayout e x).center_offset = x.center_offset := by
  rcases hm : x.mode with _ | _
  · rw [redrawLayout_eq_fm e x hm]
    exact ⟨rfl, rfl, rfl, rfl, rfl, rfl⟩
  · rw [redrawLayout_eq_strip e x hm]
    exact ⟨rfl, rfl, rfl, rfl, rfl, rfl⟩

theorem redrawLayout_dragging (e : Env) (x : Table) :
    (redrawLayout e x).dragging = false := by
  rcases hm : x.mode with _ | _
  · rw [redrawLayout_eq_fm e x hm]
    rfl
  · rw [redrawLayout_eq_strip e x hm]
    rfl

theorem redrawLayout_offset_strip (e : Env) (x : Table) (hm : x.mode = .filmstrip) :
    (redrawLayout e x).offset = x.offset := by
  rw [redrawLayout_eq_strip e x hm]
  rfl

theorem redrawLayout_list_fm (e : Env) (t1 : Table) (hm1 : t1.mode = .filemanager) :
    (redrawLayout e t1).list = (runSpec e t1.geom t1.thumb_size
      (queryGE e.collection (snapOffset t1) (t1.rows * t1.thumbs_per_row))
      t1.list (t1.center_offset, 0) t1.uidCounter).produced := by
  rw [redrawLayout_eq_fm e t1 hm1, runQuery_eq]
  rfl

theorem redrawLayout_oimg_fm (e : Env) (t1 : Table) (hm1 : t1.mode = .filemanager) :
    (redrawLayout e t1).offset_imgid = oimgFold (snapOffset t1)
      (queryGE e.collection (snapOffset t1) (t1.rows * t1.thumbs_per_row))
      t1.offset_imgid := by
  rw [redrawLayout_eq_fm e t1 hm1, runQuery_eq]
  rfl

theorem redrawLayout_list_strip (e : Env) (t1 : Table) (hm1 : t1.mode = .filmstrip) :
    (redrawLayout e t1).list = (runSpec e t1.geom t1.thumb_size
      (queryGE e.collection (stripStart t1) (t1.rows * t1.thumbs_per_row - stripEmpty t1))
      t1.list
      ((t1.view_width - t1.rows * t1.thumb_size).tdiv 2 + stripEmpty t1 * t1.thumb_size, 0)
      t1.uidCounter).produced := by
  rw [redrawLayout_eq_strip e t1 hm1, runQuery_eq]
  rfl

theorem redrawLayout_oimg_strip (e : Env) (t1 : Table) (hm1 : t1.mode = .filmstrip) :
    (redrawLayout e t1).offset_imgid = oimgFold t1.offset
      (queryGE e.collection (stripStart t1) (t1.rows * t1.thumbs_per_row - stripEmpty t1))
      t1.offset_imgid := by
  rw [redrawLayout_eq_strip e t1 hm1, runQuery_eq]
  rfl
theorem selMap_layout_fix_fm (e : Env) (t1 : Table) (hm1 : t1.mode = .filemanager)
    (hcol0 : ∀ v ∈ e.collection, 0 ≤ v) :
    redrawLayout e (selMap e (redrawLayout e t1)) = selMap e (redrawLayout e t1) := by
  obtain ⟨htpr, hvw, hvh, hts, hrows, hcen⟩ := redrawLayout_geom_fields e t1
  have hoff : (selMap e (redrawLayout e t1)).offset = snapOffset t1 := by
    rw [selMap_offset, redrawLayout_offset_fm e t1 hm1]
  have hsq : snapOffset (selMap e (redrawLayout e t1)) = snapOffset t1 := by
    unfold snapOffset
    rw [selMap_offset, selMap_tpr, redrawLayout_offset_fm e t1 hm1, htpr]
    unfold snapOffset
    exact snap_idem_val t1.offset t1.thumbs_per_row
  apply redrawLayout_fix_fm e (selMap e (redrawLayout e t1))
  · rw [selMap_mode, redrawLayout_mode]
    exact hm1
  · rw [selMap_dragging, redrawLayout_dragging]
  · rw [hsq, hoff]
  · rw [selMap_geom, redrawLayout_geom_eq, selMap_thumb_size, hts, selMap_center, hcen,
      hsq, selMap_rows, hrows, selMap_tpr, htpr, selMap_list, redrawLayout_list_fm e t1 hm1]
    exact aligned_map_sel t1.geom t1.thumb_size e _ _ _
      (runSpec_aligned e t1.geom t1.thumb_size _ _ _ _)
  · rw [hsq, selMap_rows, hrows, selMap_tpr, htpr]
    exact queryGE_snd_nonneg e.collection _ _ hcol0
  · rw [hsq, selMap_rows, hrows, selMap_tpr, htpr, hoff, selMap_offset_imgid,
      redrawLayout_oimg_fm e t1 hm1]
    exact oimgFold_idem _ _ _
  · rw [redrawLayout_eq_fm e t1 hm1, runQuery_eq, computeArea_selMap,
      computeArea_computeArea]

theorem selMap_layout_fix_strip (e : Env) (t1 : Table) (hm1 : t1.mode = .filmstrip)
    (hcol0 : ∀ v ∈ e.collection, 0 ≤ v) :
    redrawLayout e (selMap e (redrawLayout e t1)) = selMap e (redrawLayout e t1) := by
  obtain ⟨htpr, hvw, hvh, hts, hrows, hcen⟩ := redrawLayout_geom_fields e t1
  have hoff : (selMap e (redrawLayout e t1)).offset = t1.offset := by
    rw [selMap_offset, redrawLayout_offset_strip e t1 hm1]
  have hss : stripStart (selMap e (redrawLayout e t1)) = stripStart t1 := by
    unfold stripStart
    rw [selMap_offset, selMap_rows, redrawLayout_offset_strip e t1 hm1, hrows]
  have hse : stripEmpty (selMap e (redrawLayout e t1)) = stripEmpty t1 := by
    unfold stripEmpty
    rw [selMap_offset, selMap_rows, redrawLayout_offset_strip e t1 hm1, hrows]
  apply redrawLayout_fix_strip e (selMap e (redrawLayout e t1))
  · rw [selMap_mode, redrawLayout_mode]
    exact hm1
  · rw [selMap_dragging, redrawLayout_dragging]
  · rw [selMap_geom, redrawLayout_geom_eq, selMap_thumb_size, hts, selMap_vw, hvw,
      selMap_rows, hrows, hss, hse, selMap_tpr, htpr, selMap_list,
      redrawLayout_list_strip e t1 hm1]
    exact aligned_map_sel t1.geom t1.thumb_size e _ _ _
      (runSpec_aligned e t1.geom t1.thumb_size _ _ _ _)
  · rw [hss, hse, selMap_rows, hrows, selMap_tpr, htpr]
    exact queryGE_snd_nonneg e.collection _ _ hcol0
  · rw [hss, hse, selMap_rows, hrows, selMap_tpr, htpr, hoff, selMap_offset_imgid,
      redrawLayout_oimg_strip e t1 hm1]
    exact oimgFold_idem _ _ _
  · rw [redrawLayout_eq_strip e t1 hm1, runQuery_eq, computeArea_selMap,
      computeArea_computeArea]
theorem full_redraw_idem_main (n : Nat) (e : Env) (t : Table) (force : Bool)
    (hsel : t.mode = .filemanager → e.selFirstId ≤ -1)
    (hcol0 : ∀ v ∈ e.collection, 0 ≤ v) :
    fullRedrawF (n + 1) e (fullRedrawF (n + 1) e t force) force =
      fullRedrawF (n + 1) e t force := by
  have hmode := computeSizes_mode e t force
  rcases hcse : computeSizes e t force with ⟨b, t1⟩
  rw [hcse] at hmode
  simp only at hmode
  cases b
  · have h1 : fullRedrawF (n + 1) e t force = t1 := by
      simp only [fullRedrawF, hcse]
    rw [h1]
    have h2 := computeSizes_false_refix e t force t1 hcse
    simp only [fullRedrawF, h2]
  · have hcs1 : (computeSizes e t force).1 = true := by rw [hcse]
    have hlay := fullRedrawF_eq_layout n e t force hcs1 hsel
    rw [hcse] at hlay
    simp only at hlay
    obtain ⟨g1, g2, g3, g4, g5, g6⟩ := redrawLayout_geom_fields e t1
    cases force
    · rw [if_neg Bool.false_ne_true] at hlay
      rw [hlay]
      have hrefix := computeSizes_true_refix e t false t1 (redrawLayout e t1) hcse
        (redrawLayout_mode e t1) g1 g2 g3 g4 g5 g6
      have h2 : computeSizes e (redrawLayout e t1) false = (false, redrawLayout e t1) :=
        hrefix.trans (if_neg Bool.false_ne_true)
      simp only [fullRedrawF, h2]
    · rw [if_pos rfl] at hlay
      rw [hlay]
      have hrefix := computeSizes_true_refix e t true t1 (selMap e (redrawLayout e t1)) hcse
        ((selMap_mode e _).trans (redrawLayout_mode e t1))
        ((selMap_tpr e _).trans g1) ((selMap_vw e _).trans g2)
        ((selMap_vh e _).trans g3) ((selMap_thumb_size e _).trans g4)
        ((selMap_rows e _).trans g5) ((selMap_center e _).trans g6)
      have h2 : computeSizes e (selMap e (redrawLayout e t1)) true =
          (true, selMap e (redrawLayout e t1)) :=
        hrefix.trans (if_pos rfl)
      have hcs' : (computeSizes e (selMap e (redrawLayout e t1)) true).1 = true := by
        rw [h2]
      have hsel' : (selMap e (redrawLayout e t1)).mode = Mode.filemanager →
          e.selFirstId ≤ -1 := by
        intro hfm
        refine hsel ?_
        rw [← hmode, ← redrawLayout_mode e t1, ← selMap_mode e (redrawLayout e t1)]
        exact hfm
      have hlay2 := fullRedrawF_eq_layout n e (selMap e (redrawLayout e t1)) true hcs' hsel'
      rw [if_pos rfl, h2] at hlay2
      simp only at hlay2
      rw [hlay2]
      rcases hm1 : t1.mode with _ | _
      · rw [selMap_layout_fix_fm e t1 hm1 hcol0]
        exact selMap_selMap e (redrawLayout e t1)
      · rw [selMap_layout_fix_strip e t1 hm1 hcol0]
        exact selMap_selMap e (redrawLayout e t1)
theorem mem_insertAbsent_self (l : List Int) (v : Int) : v ∈ insertAbsent l v := by
  unfold insertAbsent
  split
  · assumption
  · exact List.mem_append_right _ (List.mem_singleton_self v)

theorem mem_insertAbsent_mono (l : List Int) (v w : Int) (h : w ∈ l) :
    w ∈ insertAbsent l v := by
  unfold insertAbsent
  split
  · exact h
  · exact List.mem_append_left _ h

theorem mem_foldl_insertAbsent_mono (vs : List Int) :
    ∀ (l : List Int) (w : Int), w ∈ l → w ∈ vs.foldl insertAbsent l := by
  induction vs with
  | nil => intro l w h; exact h
  | cons v vs ih => intro l w h; exact ih _ _ (mem_insertAbsent_mono l v w h)

theorem mem_foldl_insertAbsent_of_mem (vs : List Int) :
    ∀ (l : List Int) (w : Int), w ∈ vs → w ∈ vs.foldl insertAbsent l := by
  induction vs with
  | nil => intro l w h; cases h
  | cons v vs ih =>
    intro l w h
    rcases List.mem_cons.mp h with h | h
    · subst h
      exact mem_foldl_insertAbsent_mono vs _ _ (mem_insertAbsent_self l w)
    · exact ih _ _ h

theorem insertInList_mono (e : AEnv) (l : List Int) (id w : Int) (ov : Bool)
    (h : w ∈ l) : w ∈ insertInList e l id ov := by
  unfold insertInList
  split
  · exact mem_insertAbsent_mono l id w h
  · rcases hgo : e.groupOf id with _ | g <;> dsimp only
    · exact h
    · split
      · exact mem_insertAbsent_mono l id w h
      · exact mem_foldl_insertAbsent_mono _ _ _ h

theorem insertInList_group_eq (e : AEnv) (l : List Int) (id g : Int)
    (hg : e.groupOf id = some g) (hgr : e.grouping = true) (hex : e.expanded ≠ g)
    (hhc : e.hasCollection = true) :
    insertInList e l id false = (e.members g).foldl insertAbsent l := by
  unfold insertInList
  rw [if_neg Bool.false_ne_true, hg]
  dsimp only
  rw [if_neg ?_]
  rintro (h | h | h)
  · rw [hgr] at h
    cases h
  · exact hex h
  · rw [hhc] at h
    cases h

theorem insertInList_self_eq (e : AEnv) (l : List Int) (id g : Int)
    (hg : e.groupOf id = some g) (hcond : e.grouping = false ∨ e.expanded = g) :
    insertInList e l id false = insertAbsent l id := by
  unfold insertInList
  rw [if_neg Bool.false_ne_true, hg]
  dsimp only
  rw [if_pos ?_]
  rcases hcond with h | h
  · exact Or.inl h
  · exact Or.inr (Or.inl h)

theorem mem_foldl_step_mono (e : AEnv) (ov : Bool) (act : List Int) :
    ∀ (l : List Int) (w : Int), w ∈ l →
      w ∈ act.foldl (fun l id =>
        let l2 := insertInList e l id ov
        if ov then l2 else insertInList e l2 id true) l := by
  induction act with
  | nil => intro l w h; exact h
  | cons a act ih =>
    intro l w h
    refine ih _ _ ?_
    dsimp only
    split
    · exact insertInList_mono e l a w ov h
    · exact insertInList_mono e _ a w true (insertInList_mono e l a w ov h)

theorem act_on_group_members (e : AEnv) (ord : Bool) (id g : Int)
    (hid : id ∈ e.active) (hg : e.groupOf id = some g)
    (hgr : e.grouping = true) (hex : e.expanded ≠ g) (hhc : e.hasCollection = true) :
    ∀ m ∈ e.members g, m ∈ freshList e false ord := by
  intro m hm
  unfold freshList
  have key : ∀ (act : List Int) (l : List Int), id ∈ act →
      m ∈ act.foldl (fun l id2 =>
        let l2 := insertInList e l id2 false
        if false then l2 else insertInList e l2 id2 true) l := by
    intro act
    induction act with
    | nil => intro l h; cases h
    | cons a act ih =>
      intro l h
      rcases List.mem_cons.mp h with h | h
      · subst h
        refine mem_foldl_step_mono e false act _ m ?_
        dsimp only
        rw [if_neg Bool.false_ne_true]
        refine insertInList_mono e _ id m true ?_
        rw [insertInList_group_eq e l id g hg hgr hex hhc]
        exact mem_foldl_insertAbsent_of_mem _ _ _ hm
      · exact ih _ h
  exact key e.active (e.sel false ord) hid

theorem freshList_congr (e e0 : AEnv) (ov ord : Bool)
    (hsel : e.sel = e0.sel) (hact : e.active = e0.active)
    (hgo : e.groupOf = e0.groupOf) (hgr : e.grouping = e0.grouping)
    (hex : e.expanded = e0.expanded) (hhc : e.hasCollection = e0.hasCollection)
    (hmem : e.members = e0.members) :
    freshList e ov ord = freshList e0 ov ord := by
  unfold freshList insertInList
  rw [hact, hsel]
  simp only [hgo, hgr, hex, hhc, hmem]

theorem act_on_transparent (e0 e : AEnv) (ov ord : Bool)
    (hsel : e.sel = e0.sel) (hact : e.active = e0.active)
    (hgo : e.groupOf = e0.groupOf) (hgr : e.grouping = e0.grouping)
    (hex : e.expanded = e0.expanded) (hhc : e.hasCollection = e0.hasCollection)
    (hmem : e.members = e0.members)
    (htc : testCache e (freshCache e0 ov ord) = true) :
    (cacheUpdate e (freshCache e0 ov ord) ov false ord).1 = false ∧
    (getImages e (freshCache e0 ov ord) ov false ord).1 = freshList e ov ord := by
  have hupd : cacheUpdate e (freshCache e0 ov ord) ov false ord =
      (false, freshCache e0 ov ord) := by
    have hc : false = false ∧ (freshCache e0 ov ord).ordered = ord ∧
        testCache e (freshCache e0 ov ord) = true := ⟨rfl, rfl, htc⟩
    unfold cacheUpdate
    rw [if_pos hc]
  constructor
  · rw [hupd]
  · unfold getImages
    rw [hupd]
    dsimp only
    rw [if_pos (show (freshCache e0 ov ord).ok = true from rfl)]
    show freshList e0 ov ord = freshList e ov ord
    exact (freshList_congr e e0 ov ord hsel hact hgo hgr hex hhc hmem).symm

theorem degen_freeze (n : Nat) (e : Env) (t : Table) (force : Bool)
    (hdeg : e.allocW ≤ 20 ∨ e.allocH ≤ 20) :
    fullRedrawF (n + 1) e t force =
      { t with view_width := e.allocW, view_height := e.allocH } := by
  have hcse : computeSizes e t force =
      (false, { t with view_width := e.allocW, view_height := e.allocH }) := by
    unfold computeSizes
    rw [if_pos hdeg]
  simp only [fullRedrawF, hcse]
theorem strip_geom (e : Env) (t : Table) (f : Bool)
    (hm : t.mode = .filmstrip) (hcs : (computeSizes e t f).1 = true) :
    (computeSizes e t f).2.thumb_size = e.allocH ∧
    (computeSizes e t f).2.rows % 2 = 1 ∧
    e.allocW.tdiv e.allocH < (computeSizes e t f).2.rows ∧
    (∀ k : Int, e.allocW.tdiv e.allocH < k → k % 2 = 1 →
      (computeSizes e t f).2.rows ≤ k) := by
  rcases hcse : computeSizes e t f with ⟨b, t1⟩
  rw [hcse] at hcs
  simp only at hcs
  subst hcs
  dsimp only
  unfold computeSizes at hcse
  split at hcse
  · injection hcse with hb _
    cases hb
  · next hdeg =>
    rw [hm] at hcse
    dsimp only at hcse
    split at hcse
    · injection hcse with _ ht1
      subst ht1
      dsimp only
      push_neg at hdeg
      have hr0 : 0 ≤ e.allocW.tdiv e.allocH :=
        Int.tdiv_nonneg (by omega) (by omega)
      have htm : (e.allocW.tdiv e.allocH).tmod 2 = e.allocW.tdiv e.allocH % 2 :=
        Int.tmod_eq_emod hr0 (by norm_num)
      refine ⟨rfl, ?_, ?_, ?_⟩
      · split
        · next hodd =>
          rw [htm] at hodd
          omega
        · next heven =>
          rw [htm] at heven
          omega
      · split <;> omega
      · intro k hk hk2
        split
        · next hodd =>
          rw [htm] at hodd
          omega
        · next heven =>
          omega
    · injection hcse with hb _
      cases hb

theorem table_realign_eta (t : Table) (h : t.realign_top_try = 0) :
    ({ t with realign_top_try := 0 } : Table) = t := by
  rw [← h]

theorem table_list_realign_eta (t : Table) (l : List Thumb) (hl : t.list = l)
    (h : t.realign_top_try = 0) :
    ({ t with list := l, realign_top_try := 0 } : Table) = t := by
  subst hl
  rw [← h]

theorem single_col_reject (n : Nat) (e : Env) (t : Table) (x y : Int) (th : Thumb)
    (hm : t.mode = .filemanager) (htpr : t.thumbs_per_row = 1)
    (hre : t.realign_top_try = 0) (hy : y < 0) (hl : t.list = [th])
    (hlast : (e.collection.length : Int) ≤ th.rowid) :
    moveF (n + 1) e t x y true = (false, t) := by
  simp only [moveF]
  rw [hl]
  dsimp only
  rw [if_pos (by trivial)]
  rw [table_list_realign_eta t [th] hl hre]
  rw [hm]
  dsimp only
  rw [if_neg (show ¬(y = 0) from by omega)]
  rw [if_neg (fun hc : th.rowid = 1 ∧ 0 < y ∧ 0 ≤ th.y => absurd hc.2.1 (by omega))]
  have hgl : ([th] : List Thumb).getLastD default = th := rfl
  rw [hgl]
  rw [if_pos (show t.thumbs_per_row = 1 ∧ y < 0 ∧ ([th] : List Thumb).length = 1 from
    ⟨htpr, hy, rfl⟩)]
  rw [if_pos hlast]

/-- C1: Reuse on reconciliation.  Under a computed-size change, with no
selection forcing a scroll, a nonnegative duplicate-free collection and a
well-formed window cache, a full redraw produces exactly the layout for the
desired row range; every cached image id that reappears in the desired range
keeps its creation tag (the same entry is updated in place), entries with
fresh creation tags are only made for image ids that were not cached, and
entries whose image id is not claimed by the new range are destroyed (no
surviving entry carries their tag). -/
theorem claim_C1 (n : Nat) (e : Env) (t : Table) (force : Bool)
    (hsel : t.mode = .filemanager → e.selFirstId ≤ -1)
    (hcs : (computeSizes e t force).1 = true)
    (hcol0 : ∀ v ∈ e.collection, 0 ≤ v)
    (hcolnd : e.collection.Nodup)
    (hlist0 : ∀ th ∈ t.list, 0 ≤ th.imgid)
    (hlistnd : (t.list.map Thumb.imgid).Nodup)
    (huidnd : (t.list.map Thumb.uid).Nodup)
    (huidlt : ∀ th ∈ t.list, th.uid < t.uidCounter) :
    Aligned (computeSizes e t force).2.geom (computeSizes e t force).2.thumb_size
      (startPos (computeSizes e t force).2)
      (desiredQuery e (computeSizes e t force).2)
      (fullRedrawF (n + 1) e t force).list
    ∧ (∀ rv ∈ desiredQuery e (computeSizes e t force).2, ∀ th ∈ t.list,
         th.imgid = rv.2 →
         ∃ th2 ∈ (fullRedrawF (n + 1) e t force).list,
           th2.uid = th.uid ∧ th2.imgid = th.imgid)
    ∧ (∀ th2 ∈ (fullRedrawF (n + 1) e t force).list, t.uidCounter ≤ th2.uid →
         ∀ th ∈ t.list, th.imgid ≠ th2.imgid)
    ∧ (∀ th ∈ t.list,
         th.imgid ∉ (desiredQuery e (computeSizes e t force).2).map Prod.snd →
         ∀ th2 ∈ (fullRedrawF (n + 1) e t force).list, th2.uid ≠ th.uid) :=
  full_redraw_reuse_main n e t force hsel hcs hcol0 hcolnd hlist0 hlistnd huidnd huidlt

/-- Witness for C1: the empty table under the ten-image collection. -/
theorem claim_C1_witness :
    Aligned (computeSizes envW tblW false).2.geom
      (computeSizes envW tblW false).2.thumb_size
      (startPos (computeSizes envW tblW false).2)
      (desiredQuery envW (computeSizes envW tblW false).2)
      (fullRedrawF 1 envW tblW false).list
    ∧ (∀ rv ∈ desiredQuery envW (computeSizes envW tblW false).2, ∀ th ∈ tblW.list,
         th.imgid = rv.2 →
         ∃ th2 ∈ (fullRedrawF 1 envW tblW false).list,
           th2.uid = th.uid ∧ th2.imgid = th.imgid)
    ∧ (∀ th2 ∈ (fullRedrawF 1 envW tblW false).list, tblW.uidCounter ≤ th2.uid →
         ∀ th ∈ tblW.list, th.imgid ≠ th2.imgid)
    ∧ (∀ th ∈ tblW.list,
         th.imgid ∉ (desiredQuery envW (computeSizes envW tblW false).2).map Prod.snd →
         ∀ th2 ∈ (fullRedrawF 1 envW tblW false).list, th2.uid ≠ th.uid) :=
  claim_C1 0 envW tblW false (by decide) (by decide) (by decide) (by decide)
    (by decide) (by decide) (by decide) (by decide)

/-- C2: Idempotence of full redraw.  With no selection forcing a scroll and a
nonnegative collection, running dt_thumbtable_full_redraw twice with the same
environment and flags gives exactly the state after the first run. -/
theorem claim_C2 (n : Nat) (e : Env) (t : Table) (force : Bool)
    (hsel : t.mode = .filemanager → e.selFirstId ≤ -1)
    (hcol0 : ∀ v ∈ e.collection, 0 ≤ v) :
    fullRedrawF (n + 1) e (fullRedrawF (n + 1) e t force) force =
      fullRedrawF (n + 1) e t force :=
  full_redraw_idem_main n e t force hsel hcol0

/-- Witness for C2: redrawing the empty table twice. -/
theorem claim_C2_witness :
    fullRedrawF 1 envW (fullRedrawF 1 envW tblW false) false =
      fullRedrawF 1 envW tblW false :=
  claim_C2 0 envW tblW false (by decide) (by decide)

/-- C3: Offset row alignment in grid mode.  A full redraw in filemanager mode
with no selection replaces the offset with ((offset-1)/zoom)*zoom + 1: a
row-aligned rowid of the form k*columns + 1, not greater than the old offset,
and the largest such value, so the desired range starts at a full grid row. -/
theorem claim_C3 (n : Nat) (e : Env) (t : Table) (force : Bool)
    (hm : t.mode = .filemanager) (hsel : e.selFirstId ≤ -1)
    (hcs : (computeSizes e t force).1 = true)
    (hz : 1 ≤ e.zoom) (hoff : 1 ≤ t.offset) :
    (fullRedrawF (n + 1) e t force).offset =
      ((t.offset - 1).tdiv e.zoom) * e.zoom + 1 ∧
    (fullRedrawF (n + 1) e t force).offset ≤ t.offset ∧
    ((fullRedrawF (n + 1) e t force).offset - 1).tmod e.zoom = 0 ∧
    (∀ k : Int, 0 ≤ k → k * e.zoom + 1 ≤ t.offset →
      k * e.zoom + 1 ≤ (fullRedrawF (n + 1) e t force).offset) :=
  grid_offset_snap n e t force hm hsel hcs hz hoff

/-- Witness for C3: offset 7 in a five-column grid snaps to 6. -/
theorem claim_C3_witness :
    (fullRedrawF 1 envW tblC3 false).offset =
      ((tblC3.offset - 1).tdiv envW.zoom) * envW.zoom + 1 ∧
    (fullRedrawF 1 envW tblC3 false).offset ≤ tblC3.offset ∧
    ((fullRedrawF 1 envW tblC3 false).offset - 1).tmod envW.zoom = 0 ∧
    (∀ k : Int, 0 ≤ k → k * envW.zoom + 1 ≤ tblC3.offset →
      k * envW.zoom + 1 ≤ (fullRedrawF 1 envW tblC3 false).offset) :=
  claim_C3 0 envW tblC3 false (by decide) (by decide) (by decide) (by decide) (by decide)

/-- C4 (amended): Group borders in strip mode.  On a hover over a grouped
image, every single-column filmstrip entry of the hovered group gets its TOP
and BOTTOM borders set unconditionally, while the LEFT border is set exactly
when the entry is first or its preceding window-order neighbor is outside the
group, and the RIGHT border exactly when the entry is last or its following
neighbor is outside the group — the opposite role assignment from the one the
specification states. -/
theorem claim_C4 (t : Table) (imgid : Int)
    (hm : t.mode = .filmstrip) (htpr : t.thumbs_per_row = 1)
    (hg : 0 < hoverGroup t.list imgid) :
    ∀ (i : Nat) (th : Thumb), t.list[i]? = some th →
      th.groupid = hoverGroup t.list imgid →
      ∃ th2, (mouseOverCallback t imgid).list[i]? = some th2 ∧
        th2.btop = true ∧ th2.bbottom = true ∧
        (th2.bleft = true ↔
          (i = 0 ∨ ∀ p : Thumb, t.list[i - 1]? = some p → p.groupid ≠ th.groupid)) ∧
        (th2.bright = true ↔
          (t.list.length ≤ i + 1 ∨
           ∀ p : Thumb, t.list[i + 1]? = some p → p.groupid ≠ th.groupid)) :=
  strip_group_borders t imgid hm htpr hg

/-- Witness for C4: the first of two adjacent group-7 strip entries. -/
theorem claim_C4_witness :
    ∃ th2, (mouseOverCallback tblC4 1).list[0]? = some th2 ∧
      th2.btop = true ∧ th2.bbottom = true ∧
      (th2.bleft = true ↔
        (0 = 0 ∨ ∀ p : Thumb, tblC4.list[0 - 1]? = some p → p.groupid ≠ thA.groupid)) ∧
      (th2.bright = true ↔
        (tblC4.list.length ≤ 0 + 1 ∨
         ∀ p : Thumb, tblC4.list[0 + 1]? = some p → p.groupid ≠ thA.groupid)) :=
  claim_C4 tblC4 1 (by decide) (by decide) (by decide) 0 thA (by decide) (by decide)

/-- Counterexample for the original C4 wording: in a strip whose two entries
share group 7, hovering the first entry leaves its RIGHT border unset (the
following neighbor is in the group), so left/right are not drawn
unconditionally; and both BOTTOM borders are set although the horizontally
following neighbor of entry 0 shares the group, so top/bottom do not come
from the horizontal neighbor test. -/
theorem claim_C4_counterexample :
    hoverGroup tblC4.list 1 = 7 ∧
    (mouseOverCallback tblC4 1).list.map
        (fun th => (th.bleft, th.btop, th.bright, th.bbottom)) =
      [(true, true, false, true), (false, true, true, true)] := by
  decide

/-- C5 (amended): Act-on cache transparency.  When force is off, the
requested ordering matches the cached one, the cache validity predicate
holds, and in addition the selection store, active-image list and grouping
environment are unchanged since the cache was written, dt_act_on_get_images
serves the cached list without updating it and that list equals a fresh
recomputation.  The stated validity predicate alone is not sufficient: it
skips the element-wise active-image comparison while the mouse is inside the
table (see the counterexample). -/
theorem claim_C5 (e0 e : AEnv) (ov ord : Bool)
    (hsel : e.sel = e0.sel) (hact : e.active = e0.active)
    (hgo : e.groupOf = e0.groupOf) (hgr : e.grouping = e0.grouping)
    (hex : e.expanded = e0.expanded) (hhc : e.hasCollection = e0.hasCollection)
    (hmem : e.members = e0.members)
    (htc : testCache e (freshCache e0 ov ord) = true) :
    (cacheUpdate e (freshCache e0 ov ord) ov false ord).1 = false ∧
    (getImages e (freshCache e0 ov ord) ov false ord).1 = freshList e ov ord :=
  act_on_transparent e0 e ov ord hsel hact hgo hgr hex hhc hmem htc

/-- Witness for C5: an unchanged environment serves its own cache. -/
theorem claim_C5_witness :
    (cacheUpdate aenvW (freshCache aenvW true false) true false false).1 = false ∧
    (getImages aenvW (freshCache aenvW true false) true false false).1 =
      freshList aenvW true false :=
  claim_C5 aenvW aenvW true false rfl rfl rfl rfl rfl rfl rfl (by decide)

/-- Counterexample for the original C5 wording: the active image changed from
1 to 2 while the mouse stayed inside the table; the validity predicate still
holds (same hover id, same inside flag, equal lengths — the element-wise
check is skipped when the mouse is inside), yet the served cached list
differs from a fresh recomputation. -/
theorem claim_C5_counterexample :
    testCache aenvY (freshCache aenvX true false) = true ∧
    (cacheUpdate aenvY (freshCache aenvX true false) true false false).1 = false ∧
    (getImages aenvY (freshCache aenvX true false) true false false).1 ≠
      freshList aenvY true false := by
  decide

/-- C6: Group expansion policy of the action set.  For an active image whose
group is known: with grouping enabled, the group not expanded and a
collection behind the selection, every group member matching the collection
filter lands in the not-only-visible result list; with grouping off or the
group expanded, the insertion step adds exactly the image itself. -/
theorem claim_C6 (e : AEnv) (ord : Bool) (id g : Int)
    (hid : id ∈ e.active) (hg : e.groupOf id = some g) :
    (e.grouping = true → e.expanded ≠ g → e.hasCollection = true →
       ∀ m ∈ e.members g, m ∈ freshList e false ord) ∧
    (∀ l : List Int, e.grouping = false ∨ e.expanded = g →
       insertInList e l id false = insertAbsent l id) :=
  ⟨fun hgr hex hhc => act_on_group_members e ord id g hid hg hgr hex hhc,
   fun l hcond => insertInList_self_eq e l id g hg hcond⟩

/-- Witness for C6: active image 5 of group 7 pulls in members 5 and 6. -/
theorem claim_C6_witness :
    (aenvW.grouping = true → aenvW.expanded ≠ 7 → aenvW.hasCollection = true →
       ∀ m ∈ aenvW.members 7, m ∈ freshList aenvW false false) ∧
    (∀ l : List Int, aenvW.grouping = false ∨ aenvW.expanded = 7 →
       insertInList aenvW l 5 false = insertAbsent l 5) :=
  claim_C6 aenvW false 5 7 (by decide) (by decide)

/-- C7: Single-entry forward-scroll rejection.  In a single-column grid table
holding exactly one entry whose rowid already reaches the end of the
collection, a clamped move with negative vertical delta returns false and
leaves the table unchanged. -/
theorem claim_C7 (n : Nat) (e : Env) (t : Table) (x y : Int) (th : Thumb)
    (hm : t.mode = .filemanager) (htpr : t.thumbs_per_row = 1)
    (hre : t.realign_top_try = 0) (hy : y < 0) (hl : t.list = [th])
    (hlast : (e.collection.length : Int) ≤ th.rowid) :
    moveF (n + 1) e t x y true = (false, t) :=
  single_col_reject n e t x y th hm htpr hre hy hl hlast

/-- Witness for C7: the singleton table at the last of ten rows rejects a
forward scroll. -/
theorem claim_C7_witness : moveF 1 envW tblC7 0 (-50) true = (false, tblC7) :=
  claim_C7 0 envW tblC7 0 (-50) thC7 (by decide) (by decide) (by decide)
    (by decide) (by decide) (by decide)

/-- C8 (amended): Strip geometry.  For a non-degenerate filmstrip allocation
that _compute_sizes reports as changed, the thumb size equals the viewport
height and the number of visible positions is the smallest ODD integer
strictly greater than viewport_width/thumb_size — an odd, not even, count,
so one item sits exactly at the center anchor. -/
theorem claim_C8 (e : Env) (t : Table) (f : Bool)
    (hm : t.mode = .filmstrip) (hcs : (computeSizes e t f).1 = true) :
    (computeSizes e t f).2.thumb_size = e.allocH ∧
    (computeSizes e t f).2.rows % 2 = 1 ∧
    e.allocW.tdiv e.allocH < (computeSizes e t f).2.rows ∧
    (∀ k : Int, e.allocW.tdiv e.allocH < k → k % 2 = 1 →
      (computeSizes e t f).2.rows ≤ k) :=
  strip_geom e t f hm hcs

/-- Witness for C8: a 500 x 220 strip allocation gives thumb size 220 and
3 visible positions. -/
theorem claim_C8_witness :
    (computeSizes envW tblC8 false).2.thumb_size = envW.allocH ∧
    (computeSizes envW tblC8 false).2.rows % 2 = 1 ∧
    envW.allocW.tdiv envW.allocH < (computeSizes envW tblC8 false).2.rows ∧
    (∀ k : Int, envW.allocW.tdiv envW.allocH < k → k % 2 = 1 →
      (computeSizes envW tblC8 false).2.rows ≤ k) :=
  claim_C8 envW tblC8 false (by decide) (by decide)

/-- Counterexample for the original C8 wording: the 500 x 220 strip
allocation yields 3 visible positions — an odd count, not the even count the
specification states. -/
theorem claim_C8_counterexample :
    (computeSizes envW tblC8 false).2.rows = 3 ∧
    (computeSizes envW tblC8 false).2.rows % 2 = 1 := by
  decide

/-- C9 (amended): Degenerate-viewport freeze.  When either allocation side is
at most 20 px, a full redraw performs no reconciliation: the window cache,
offset and layout state are left unchanged — except that the stored viewport
width and height are updated to the new allocation. -/
theorem claim_C9 (n : Nat) (e : Env) (t : Table) (force : Bool)
    (hdeg : e.allocW ≤ 20 ∨ e.allocH ≤ 20) :
    fullRedrawF (n + 1) e t force =
      { t with view_width := e.allocW, view_height := e.allocH } :=
  degen_freeze n e t force hdeg

/-- Witness for C9: a 10 px wide allocation freezes the empty table. -/
theorem claim_C9_witness :
    fullRedrawF 1 envC9 tblW false =
      { tblW with view_width := envC9.allocW, view_height := envC9.allocH } :=
  claim_C9 0 envC9 tblW false (by decide)

/-- Counterexample for the original C9 wording: the degenerate redraw does
not leave all state unchanged — the stored viewport width is overwritten
with the new allocation. -/
theorem claim_C9_counterexample :
    (fullRedrawF 1 envC9 tblC9 false).view_width ≠ tblC9.view_width := by
  decide

/-- C10: Offset lower-bound invariant.  Starting from an offset of at least
1, every offset-modifying operation — an incremental move, a full redraw,
dt_thumbtable_set_offset, the collection-changed handler and table creation
— leaves the stored offset at least 1; and set_offset with a target below 1
or equal to the current offset returns false and changes nothing. -/
theorem claim_C10 (fuel : Nat) (e : Env) (t : Table) (x y : Int)
    (c force rd isReload : Bool) (off next confPos : Int) (imgs : List Int)
    (hoff : 1 ≤ t.offset) :
    1 ≤ (moveF fuel e t x y c).2.offset ∧
    1 ≤ (fullRedrawF fuel e t force).offset ∧
    1 ≤ (setOffset fuel e t off rd).2.offset ∧
    (off < 1 ∨ off = t.offset → setOffset fuel e t off rd = (false, t)) ∧
    1 ≤ (collectionChangedF fuel e t isReload imgs next).offset ∧
    1 ≤ (newTable confPos).offset :=
  ⟨(fullRedrawF_offset_ge_one fuel).1 e t x y c hoff,
   (fullRedrawF_offset_ge_one fuel).2.1 e t force hoff,
   setOffset_ge_one fuel e t off rd hoff,
   fun h => setOffset_reject fuel e t off rd h,
   collectionChanged_ge_one fuel e t isReload imgs next,
   newTable_ge_one confPos⟩

/-- Witness for C10: the empty table with offset 1 under every operation. -/
theorem claim_C10_witness :
    1 ≤ (moveF 1 envW tblW 0 (-50) true).2.offset ∧
    1 ≤ (fullRedrawF 1 envW tblW true).offset ∧
    1 ≤ (setOffset 1 envW tblW 0 false).2.offset ∧
    ((0 : Int) < 1 ∨ (0 : Int) = tblW.offset → setOffset 1 envW tblW 0 false = (false, tblW)) ∧
    1 ≤ (collectionChangedF 1 envW tblW false [] (-1)).offset ∧
    1 ≤ (newTable 5).offset :=
  claim_C10 1 envW tblW 0 (-50) true true false false 0 (-1) 5 [] (by decide)
